import Mathlib

/-!
Verification development for the MBFC scraper (src/scraper.py).

The Python source is shallowly embedded: pure helpers become Lean
functions on `String` / `List Char`; Python dicts become association
lists with Python's insert/overwrite semantics; JSON values become the
`Json` inductive; the side-effecting pieces (HTTP fetching, the file
system) are abstracted as explicit inputs (per-attempt curl outputs, a
`FileState`, a fetch oracle for the main loop).  Python float literals
parsed by `float(...)` from the scraper's regex captures are modelled
exactly by a decimal pair (mantissa, decimal exponent); the claims never
compare two distinct literals, so no floating-point rounding is needed.
All definitions are structurally recursive so that concrete runs reduce
by `rfl` / `decide`.
-/

namespace MBFC

/-- Whitespace as matched by Python's `\s` and stripped by `str.strip()`
(ASCII fragment, which is all the scraper's inputs exercise). -/
def pyIsSpace (c : Char) : Bool :=
  c = ' ' || c = '\t' || c = '\n' || c = '\r' || c = '\x0b' || c = '\x0c'

/-- ASCII decimal digit, as matched by `\d`. -/
def isDigitChar (c : Char) : Bool :=
  '0' ≤ c && c ≤ '9'

/-- Character class `[-\d.]` from the rating regex. -/
def isNumClass (c : Char) : Bool :=
  c = '-' || c = '.' || isDigitChar c

/-- Python `str.strip()` on a character list: drop whitespace from both ends. -/
def pyStripList (cs : List Char) : List Char :=
  ((cs.dropWhile pyIsSpace).reverse.dropWhile pyIsSpace).reverse

/-- Python `str.strip()`. -/
def pyStrip (s : String) : String :=
  String.mk (pyStripList s.data)

/-- Python `str.upper()` on a single character (ASCII fragment). -/
def pyUpperChar (c : Char) : Char :=
  if 'a' ≤ c ∧ c ≤ 'z' then Char.ofNat (c.toNat - 32) else c

/-- Python `str.upper()` (ASCII fragment). -/
def pyUpper (s : String) : String :=
  String.mk (s.data.map pyUpperChar)

/-- Python `str.lower()` on a single character (ASCII fragment), used to
model `re.IGNORECASE` comparisons. -/
def pyLowerChar (c : Char) : Char :=
  if 'A' ≤ c ∧ c ≤ 'Z' then Char.ofNat (c.toNat + 32) else c

/-- Python `str.startswith` on character lists. -/
def pyStartsWithL : List Char → List Char → Bool
  | [], _ => true
  | _ :: _, [] => false
  | p :: ps, c :: cs => p = c && pyStartsWithL ps cs

/-- Python `str.startswith`. -/
def pyStartsWith (s pre : String) : Bool :=
  pyStartsWithL pre.data s.data

/-- Value of a list of decimal digits. -/
def digitsVal (cs : List Char) : ℕ :=
  cs.foldl (fun n c => 10 * n + (c.toNat - '0'.toNat)) 0

/-- Exact value of a Python float literal: `mant / 10 ^ exp`.  The
scraper only ever builds floats from decimal literals captured by its
regexes, so this pair represents the parsed value exactly. -/
structure Dec where
  mant : ℤ
  exp : ℕ
  deriving DecidableEq, Repr

/-- Python `float(s)` on a string over the class `[-\d.]`, as applied by
`parse_rating_field` to the regex capture: `none` when `float` raises
`ValueError`.  Accepted shapes are an optional leading minus sign, then
digits with at most one dot and at least one digit. -/
def pyFloatParse (cs : List Char) : Option Dec :=
  let (neg, cs1) :=
    match cs with
    | '-' :: rest => (true, rest)
    | _ => (false, cs)
  let ip := cs1.takeWhile isDigitChar
  let r := cs1.drop ip.length
  let build : ℕ → ℕ → ℕ → Dec := fun i f k =>
    let m : ℤ := (i * 10 ^ k + f : ℕ)
    { mant := if neg then -m else m, exp := k }
  match r with
  | [] => if ip.isEmpty then none else some (build (digitsVal ip) 0 0)
  | '.' :: fp =>
      if fp.all isDigitChar ∧ (ip ≠ [] ∨ fp ≠ []) then
        some (build (digitsVal ip) (digitsVal fp) fp.length)
      else none
  | _ => none

/-! ### The rating regex `^(.+?)\s*\(([-\d.]+)\)\s*$`

`parse_rating_field` applies `re.match` with this pattern to the
stripped input.  The matcher below implements exactly that pattern with
Python's strategy: the lazy `.+?` tries the shortest label first (each
label character must not be a newline, since `.` does not match `\n`);
`\s*` and `[-\d.]+` are greedy, and since `(` is not whitespace and `)`
is not in the class, their backtracking can never succeed, so they are
implemented as maximal runs; the final `\s*$` accepts exactly a trailing
run of whitespace. -/

/-- Attempt to match `\s*\(([-\d.]+)\)\s*$` against the remainder after
the lazy label, returning the capture of group 2. -/
def tryTail (rest : List Char) : Option (List Char) :=
  match rest.dropWhile pyIsSpace with
  | c :: rest2 =>
      if c = '(' then
        let num := rest2.takeWhile isNumClass
        let rest3 := rest2.dropWhile isNumClass
        if num.isEmpty then none
        else if rest3.head? = some ')' then
          if rest3.tail.all pyIsSpace then some num else none
        else none
      else none
  | [] => none

/-- Lazy expansion of `.+?`: grow the label one character at a time,
trying `tryTail` after each extension.  `labelRev` holds the label
read so far, reversed. -/
def goLazy (labelRev : List Char) (rest : List Char) :
    Option (List Char × List Char) :=
  match tryTail rest with
  | some num => some (labelRev.reverse, num)
  | none =>
      match rest with
      | [] => none
      | c :: rest2 => if c = '\n' then none else goLazy (c :: labelRev) rest2

/-- Full match of `^(.+?)\s*\(([-\d.]+)\)\s*$`, returning the two
captures on success. -/
def reMatchRating (cs : List Char) : Option (List Char × List Char) :=
  match cs with
  | [] => none
  | c :: rest => if c = '\n' then none else goLazy [c] rest

/-- Embedding of `parse_rating_field` (scraper.py lines 109-114).  The
result is `Except` because `float(match.group(2))` can raise
`ValueError` when group 2 matches `[-\d.]+` but is not a float literal
(for example `-` or `1.2.3`). -/
def parse_rating_field (text : String) : Except Unit (String × Option Dec) :=
  match reMatchRating (pyStrip text).data with
  | some (label, num) =>
      match pyFloatParse num with
      | some d => .ok (pyStrip (String.mk label), some d)
      | none => .error ()
  | none => .ok (pyStrip text, none)

/-! ### The fetcher `fetch_url` (scraper.py lines 50-76)

Each attempt runs curl and reads its stdout; the transport is modelled
as a function from the attempt index to that stdout string.  The
result records the sleeps performed by the 429 branch so the backoff
schedule is observable. -/

/-- Outcome of `fetch_url`: a body, an immediate `RuntimeError` with the
status and url (non-2xx, non-429), or exhaustion of the retry budget. -/
inductive FetchRes where
  | ok (body : String)
  | httpErr (status : String) (url : String)
  | exhausted (url : String)
  deriving DecidableEq, Repr

/-- Split curl stdout into body and status code: `output.rsplit("\n", 1)`
followed by the two-element check, with the status stripped; when no
newline is present the status falls back to `"0"`. -/
def parseCurl (out : String) : String × String :=
  let rev := out.data.reverse
  match rev.span (fun c => c ≠ '\n') with
  | (statusRev, '\n' :: htmlRev) =>
      (String.mk htmlRev.reverse, pyStrip (String.mk statusRev.reverse))
  | _ => (out, "0")

/-- One pass of the retry loop of `fetch_url`.  `i` is the attempt index
(Python's `attempt`), `remaining` the attempts left, `sleeps` the
accumulated 429 waits in reverse. -/
def fetchGo (out : ℕ → String) (url : String) :
    ℕ → ℕ → List ℕ → FetchRes × List ℕ
  | _, 0, sleeps => (.exhausted url, sleeps.reverse)
  | i, remaining + 1, sleeps =>
      let (html, status) := parseCurl (out i)
      if status = "429" then
        fetchGo out url (i + 1) remaining (30 * (i + 1) :: sleeps)
      else if pyStartsWith status "2" then
        (.ok html, sleeps.reverse)
      else
        (.httpErr status url, sleeps.reverse)

/-- Embedding of `fetch_url(url, retries)`: the pair of the outcome and
the list of backoff sleeps performed. -/
def fetch_url (out : ℕ → String) (url : String) (retries : ℕ := 3) :
    FetchRes × List ℕ :=
  fetchGo out url 0 retries []

/-! ### JSON values and Python dicts

Records travel as Python dicts with string keys (`PyDict`); the
checkpoint mapping produced by `load_existing_results` is keyed by the
records' `url` values, which in general are arbitrary JSON values, so
it is an association list over `Json` keys (`PyJDict`).  Insertion
follows Python dict semantics: an existing key keeps its position and
key object and has its value replaced, a new key is appended. -/

/-- JSON values (and, via `obj`, Python dicts as produced by `json.load`
and by the scraper).  Numbers carry the exact decimal value. -/
inductive Json where
  | null : Json
  | boolVal : Bool → Json
  | num : Dec → Json
  | str : String → Json
  | arr : List Json → Json
  | obj : List (String × Json) → Json
  deriving Repr

mutual

/-- Structural equality of JSON values (Python `==` on the values
`json.load` produces). -/
def jsonBeq : Json → Json → Bool
  | .null, .null => true
  | .boolVal x, .boolVal y => x == y
  | .num x, .num y => x == y
  | .str x, .str y => x == y
  | .arr xs, .arr ys => jsonBeqList xs ys
  | .obj xs, .obj ys => jsonBeqObj xs ys
  | _, _ => false

def jsonBeqList : List Json → List Json → Bool
  | [], [] => true
  | x :: xs, y :: ys => jsonBeq x y && jsonBeqList xs ys
  | _, _ => false

def jsonBeqObj : List (String × Json) → List (String × Json) → Bool
  | [], [] => true
  | (k1, v1) :: xs, (k2, v2) :: ys => k1 == k2 && jsonBeq v1 v2 && jsonBeqObj xs ys
  | _, _ => false

end

/-- Python `x in s` for a set of JSON values. -/
def jsonMem (x : Json) : List Json → Bool
  | [] => false
  | y :: ys => jsonBeq x y || jsonMem x ys

/-- A Python dict with string keys, in insertion order. -/
def PyDict := List (String × Json)

/-- Lookup in a string-keyed dict. -/
def pyLookup : List (String × Json) → String → Option Json
  | [], _ => none
  | (k0, v0) :: rest, k => if k0 = k then some v0 else pyLookup rest k

/-- Python `d[k] = v`: replace in place, or append a new key. -/
def pyDictSet : List (String × Json) → String → Json → List (String × Json)
  | [], k, v => [(k, v)]
  | (k0, v0) :: rest, k, v =>
      if k0 = k then (k0, v) :: rest else (k0, v0) :: pyDictSet rest k v

/-- Python `d.pop(k)`: remove the key (the scraper only pops keys it
knows are present). -/
def pyDictPop : List (String × Json) → String → List (String × Json)
  | [], _ => []
  | (k0, v0) :: rest, k => if k0 = k then rest else (k0, v0) :: pyDictPop rest k

/-- Python `d.get(k, default)`. -/
def pyGetD (d : List (String × Json)) (k : String) (dflt : Json) : Json :=
  (pyLookup d k).getD dflt

/-- The checkpoint mapping: a Python dict keyed by JSON values. -/
def PyJDict := List (Json × Json)

/-- Insertion into a JSON-keyed dict (Python dict semantics). -/
def jInsert : List (Json × Json) → Json → Json → List (Json × Json)
  | [], k, v => [(k, v)]
  | (k0, v0) :: rest, k, v =>
      if jsonBeq k k0 then (k0, v) :: rest else (k0, v0) :: jInsert rest k v

/-! ### The field extractor `scrape_source` (scraper.py lines 117-172)

The opaque HTML collaborator is abstracted as a `Page`: the list of
hyperlinks in document order, each reduced to the strings
`a.get("href", "")` and `a.get_text(strip=True)`, and the flattened
text `soup.get_text(separator="\n")`. -/

def BASE_URL : String := "https://mediabiasfactcheck.com"

/-- One hyperlink of the detail page. -/
structure Anchor where
  href : String
  text : String
  deriving Repr

/-- A detail page as seen by the extractor. -/
structure Page where
  anchors : List Anchor
  content : String
  deriving Repr

/-- The anchor test of line 129: href and visible text both non-empty
and identical, href not pointing back into the site's own domain. -/
def anchorOK (a : Anchor) : Bool :=
  a.href ≠ "" && a.text ≠ "" && a.href == a.text &&
    !(pyStartsWith a.href BASE_URL)

/-- Tier 1 of the source-url recovery: the first anchor passing
`anchorOK`, in document order (lines 126-131). -/
def findSourceAnchor : List Anchor → Option String
  | [] => none
  | a :: rest =>
      if anchorOK a then some a.href else findSourceAnchor rest

/-- Match a case-sensitive literal and return the remainder. -/
def dropLit : List Char → List Char → Option (List Char)
  | [], cs => some cs
  | _ :: _, [] => none
  | p :: ps, c :: cs => if p = c then dropLit ps cs else none

/-- Match a literal case-insensitively (ASCII, models `re.IGNORECASE`)
and return the remainder. -/
def dropLitCI : List Char → List Char → Option (List Char)
  | [], cs => some cs
  | _ :: _, [] => none
  | p :: ps, c :: cs =>
      if pyLowerChar p = pyLowerChar c then dropLitCI ps cs else none

/-- Attempt `Source:\s*(https?://[^\s]+)` at the head of `cs`, returning
the capture.  After `http`, the greedy `s?` first tries to consume an
`s`; either way `://` must follow, then a non-empty run of
non-whitespace characters. -/
def matchSourceAt (cs : List Char) : Option (List Char) :=
  match dropLit "Source:".data cs with
  | none => none
  | some r =>
      let r1 := r.dropWhile pyIsSpace
      match dropLit "http".data r1 with
      | none => none
      | some r2 =>
          let afterScheme : List Char → Option (List Char × List Char) :=
            fun rest =>
              match dropLit "://".data rest with
              | some r3 => some (rest.take 3, r3)
              | none => none
          let tryBoth : Option (Bool × List Char) :=
            match r2 with
            | 's' :: r2s =>
                match afterScheme r2s with
                | some (_, r3) => some (true, r3)
                | none =>
                    match afterScheme r2 with
                    | some (_, r3) => some (false, r3)
                    | none => none
            | _ =>
                match afterScheme r2 with
                | some (_, r3) => some (false, r3)
                | none => none
          match tryBoth with
          | none => none
          | some (hasS, r3) =>
              let run := r3.takeWhile (fun c => !pyIsSpace c)
              if run.isEmpty then none
              else
                some ("http".data ++ (if hasS then ['s'] else []) ++
                  "://".data ++ run)

/-- Leftmost search of `Source:\s*(https?://[^\s]+)` (line 133). -/
def searchSource : List Char → Option (List Char)
  | [] => none
  | c :: rest =>
      match matchSourceAt (c :: rest) with
      | some u => some u
      | none => searchSource rest

/-- The tail `\s*(.+)` of a label pattern, applied after the colon:
`\s*` is greedy but backtracks, and `.+` takes the rest of the line,
which must contain at least one non-newline character. -/
def afterColon : List Char → Option (List Char)
  | [] => none
  | c :: rest =>
      if pyIsSpace c then
        match afterColon rest with
        | some g => some g
        | none => if c = '\n' then none else some (takeLine (c :: rest))
      else some (takeLine (c :: rest))
where
  /-- Greedy `.+` from a non-newline character: the rest of the line. -/
  takeLine (cs : List Char) : List Char := cs.takeWhile (fun c => c ≠ '\n')

/-- Attempt `<label>\s*(.+)` at the head of `cs` (the label literal
includes its colon), case-insensitively. -/
def matchLabelAt (lab : List Char) (cs : List Char) : Option (List Char) :=
  match dropLitCI lab cs with
  | some rest => afterColon rest
  | none => none

/-- Leftmost case-insensitive search of `<label>\s*(.+)` (line 150). -/
def searchLabel (lab : List Char) : List Char → Option (List Char)
  | [] => none
  | c :: rest =>
      match matchLabelAt lab (c :: rest) with
      | some g => some g
      | none => searchLabel lab rest

/-- Value extracted for one label pattern: the trimmed capture. -/
def labelValue (lab : String) (content : String) : Option String :=
  (searchLabel lab.data content.data).map (fun g => pyStrip (String.mk g))

/-- The patterns table of `scrape_source` (lines 139-147), in dict
order; each label literal ends with its colon, mirroring
`r"<Label>:\s*(.+)"`. -/
def patterns : List (String × String) :=
  [("bias_rating_raw", "Bias Rating:"),
   ("factual_reporting_raw", "Factual Reporting:"),
   ("country", "Country:"),
   ("freedom_rating", "Country Freedom Rating:"),
   ("media_type", "Media Type:"),
   ("traffic", "Traffic/Popularity:"),
   ("credibility", "MBFC Credibility Rating:")]

/-- One step of the pattern loop (lines 150-152): set the key only when
its pattern matches. -/
def patternStep (content : String) (d : List (String × Json))
    (kv : String × String) : List (String × Json) :=
  match labelValue kv.2 content with
  | some v => pyDictSet d kv.1 (.str v)
  | none => d

/-- The pattern loop of `scrape_source` (lines 149-152). -/
def applyPatterns (d : List (String × Json)) (content : String) :
    List (String × Json) :=
  patterns.foldl (patternStep content) d

/-- Json value of an optional score. -/
def decToJson : Option Dec → Json
  | some d => .num d
  | none => .null

/-- The composite-field step of `scrape_source` (lines 155-170) for one
raw key: pop the raw value and parse it, or store two `None`s when the
raw key is absent.  Propagates the `ValueError` that
`parse_rating_field` can raise. -/
def applyRating (d : List (String × Json)) (rawKey labelKey scoreKey : String) :
    Except Unit (List (String × Json)) :=
  match pyLookup d rawKey with
  | some (.str s) =>
      match parse_rating_field s with
      | .ok (l, sc) =>
          .ok (pyDictSet (pyDictSet (pyDictPop d rawKey) labelKey (.str l))
                scoreKey (decToJson sc))
      | .error e => .error e
  | some _ => .error ()
  | none => .ok (pyDictSet (pyDictSet d labelKey .null) scoreKey .null)

/-- Embedding of `scrape_source` (lines 117-172), from the fetched page
to the record dict; `Except` propagates the `ValueError` of
`parse_rating_field`. -/
def scrape_source (p : Page) : Except Unit (List (String × Json)) :=
  let sourceLink : Json :=
    match findSourceAnchor p.anchors with
    | some u => .str u
    | none =>
        match searchSource p.content.data with
        | some g => .str (pyStrip (String.mk g))
        | none => .null
  let d1 := pyDictSet [] "source_url" sourceLink
  let d2 := applyPatterns d1 p.content
  match applyRating d2 "bias_rating_raw" "bias_rating" "bias_score" with
  | .error e => .error e
  | .ok d3 => applyRating d3 "factual_reporting_raw" "factual_reporting" "factual_score"

/-! ### The checkpoint store (scraper.py lines 175-196) -/

/-- Fixed CSV schema (lines 23-37). -/
def FIELDNAMES : List String :=
  ["name", "url", "category", "source_url", "bias_rating", "bias_score",
   "factual_reporting", "factual_score", "country", "freedom_rating",
   "media_type", "traffic", "credibility"]

/-- State of the checkpoint file as seen by `load_existing_results`:
absent, unreadable (`open` raises `OSError`), unparsable
(`json.load` raises `JSONDecodeError`), or holding a parsed value. -/
inductive FileState where
  | absent : FileState
  | unreadable : FileState
  | invalidJson : FileState
  | jsonContent : Json → FileState

/-- Python exceptions that the loading path can raise. -/
inductive PyErr where
  | osError : PyErr
  | typeError : PyErr
  | keyError : PyErr
  deriving DecidableEq, Repr

/-- The dict comprehension `{r["url"]: r for r in records}` over a list:
a non-dict element raises `TypeError`, a dict without `"url"` raises
`KeyError`. -/
def loadGo (acc : List (Json × Json)) : List Json → Except PyErr (List (Json × Json))
  | [] => .ok acc
  | r :: rs =>
      match r with
      | .obj flds =>
          match pyLookup flds "url" with
          | some v => loadGo (jInsert acc v r) rs
          | none => .error .keyError
      | _ => .error .typeError

/-- The dict comprehension applied to an arbitrary parsed value:
iterating a dict yields its string keys and iterating a string yields
its characters, so any non-empty dict or string raises `TypeError` at
the subscript; non-iterable values raise `TypeError` immediately. -/
def loadIter : Json → Except PyErr (List (Json × Json))
  | .arr rs => loadGo [] rs
  | .obj [] => .ok []
  | .obj (_ :: _) => .error .typeError
  | .str s => match s.data with | [] => .ok [] | _ :: _ => .error .typeError
  | _ => .error .typeError

/-- Embedding of `load_existing_results` (lines 175-184).  The `try`
block catches exactly `json.JSONDecodeError` and `KeyError`; `OSError`
from an unreadable file and `TypeError` from the comprehension
propagate. -/
def load_existing_results (fs : FileState) : Except PyErr (List (Json × Json)) :=
  match fs with
  | .absent => .ok []
  | .unreadable => .error .osError
  | .invalidJson => .ok []
  | .jsonContent j =>
      match loadIter j with
      | .ok m => .ok m
      | .error .keyError => .ok []
      | .error e => .error e

/-- Output actions of `save_results`, in the order performed. -/
inductive SaveEvent where
  | jsonWrite : Json → SaveEvent
  | csvWrite : List String → List (List Json) → SaveEvent
  deriving Repr

/-- The CSV row written for one record: `{k: row.get(k, "") for k in
FIELDNAMES}` read off in header order. -/
def csvRowOf (r : Json) : List Json :=
  FIELDNAMES.map (fun k =>
    match r with
    | .obj flds => pyGetD flds k (.str "")
    | _ => .str "")

/-- Embedding of `save_results` (lines 187-196): the JSON dump of the
result list, then the CSV with the fixed header and one row per
record. -/
def save_results (results : List Json) : List SaveEvent :=
  [.jsonWrite (.arr results), .csvWrite FIELDNAMES (results.map csvRowOf)]

/-- The JSON payload written first by a list of save events. -/
def writtenJson : List SaveEvent → Option Json
  | .jsonWrite j :: _ => some j
  | _ => none

/-- The checkpoint file produced by saving a result list. -/
def checkpointFile (results : List Json) : FileState :=
  match writtenJson (save_results results) with
  | some j => .jsonContent j
  | none => .invalidJson

/-! ### The extraction phase of `main` (scraper.py lines 218-263)

Fetching and parsing a detail page is abstracted as an oracle from the
url to the outcome of `scrape_source`; the oracle is a function, so an
unchanged network between two runs is the same oracle.  `LoopState`
carries the driver's mutable state plus two observation logs: the
snapshots passed to mid-run checkpoint saves and the urls actually
fetched. -/

/-- One collected source link `(name, url, category)`. -/
structure LinkInfo where
  name : String
  url : String
  category : String
  deriving Repr

/-- Outcome of `scrape_source(url)` for the driver. -/
def Oracle := String → Except Unit (List (String × Json))

/-- Driver state during the extraction loop. -/
structure LoopState where
  results : List Json
  scraped : List Json
  skipped : ℕ
  errors : ℕ
  scraped_count : ℕ
  saves : List (List Json)
  fetched : List String
  deriving Repr

/-- Lines 251-256: increment `scraped_count`, and checkpoint when it
hits a multiple of 25. -/
def afterTry (st : LoopState) : LoopState :=
  let sc := st.scraped_count + 1
  let st1 := { st with scraped_count := sc }
  if sc % 25 = 0 then { st1 with saves := st1.saves ++ [st1.results] } else st1

/-- Lines 235-237: enrich the fetched record with name, url and
category. -/
def withMeta (d0 : List (String × Json)) (l : LinkInfo) : List (String × Json) :=
  pyDictSet (pyDictSet (pyDictSet d0 "name" (.str l.name))
    "url" (.str l.url)) "category" (.str l.category)

/-- Lines 227-258: one iteration of the extraction loop.  A url already
in `scraped` is skipped; otherwise the page is fetched; an exception
counts an error; a fetched record gets name/url/category, then the
country filter either appends it or (via `continue`) only marks the url
processed, skipping the checkpoint test.  A non-string `country` value
makes `.upper()` raise, which the `except` turns into an error. -/
def processLink (oracle : Oracle) (st : LoopState) (l : LinkInfo) : LoopState :=
  if jsonMem (.str l.url) st.scraped then
    { st with skipped := st.skipped + 1 }
  else
    let st1 := { st with fetched := st.fetched ++ [l.url] }
    match oracle l.url with
    | .error _ => afterTry { st1 with errors := st1.errors + 1 }
    | .ok d0 =>
        let d := withMeta d0 l
        match pyGetD d "country" (.str "") with
        | .str c =>
            if pyUpper c ≠ "USA" then
              { st1 with scraped := st1.scraped ++ [.str l.url],
                         scraped_count := st1.scraped_count + 1 }
            else
              afterTry { st1 with results := st1.results ++ [.obj d],
                                  scraped := st1.scraped ++ [.str l.url] }
        | _ => afterTry { st1 with errors := st1.errors + 1 }

/-- Result of one full run of the extraction phase. -/
structure RunOut where
  st : LoopState
  finalSave : List Json

/-- Embedding of the extraction phase of `main` (lines 218-263): load
the checkpoint, seed `results` with its values and `scraped_urls` with
its keys, fold the loop over the collected links, and perform the
unconditional final save.  An exception from the load (which `main`
does not catch) aborts the run. -/
def runMain (oracle : Oracle) (links : List LinkInfo) (fs : FileState) :
    Except PyErr RunOut :=
  match load_existing_results fs with
  | .error e => .error e
  | .ok existing =>
      let st0 : LoopState :=
        { results := existing.map Prod.snd, scraped := existing.map Prod.fst,
          skipped := 0, errors := 0, scraped_count := 0, saves := [],
          fetched := [] }
      let st := links.foldl (processLink oracle) st0
      .ok { st := st, finalSave := st.results }

/-! ### Concrete inputs and spec-level predicates used by the theorems -/

/-- Concrete transport used as a witness: 429 on the first two
attempts, 200 on the third. -/
def outW (i : ℕ) : String :=
  if i < 2 then "x\n429" else "body\n200"

/-- Oracle for the 26-link checkpoint-boundary run: every page extracts
cleanly; only `u25` is a non-USA source. -/
def oracle26 : Oracle := fun u =>
  if u = "u25" then .ok [("country", .str "Canada")]
  else .ok [("country", .str "USA")]

/-- The 26 collected links of the checkpoint-boundary run. -/
def links26 : List LinkInfo :=
  (List.range 26).map (fun i => ⟨"n", "u" ++ toString (i + 1), "Left"⟩)

/-- A record list in which every element is a dict with a string
`url` value, the shape `main` itself persists. -/
def urlKeyed (rs : List Json) : Prop :=
  ∀ r ∈ rs, ∃ flds u, r = .obj flds ∧ pyLookup flds "url" = some (.str u)

/-- The url key under which a record is filed by the load
comprehension. -/
def urlOfRec (r : Json) : Json :=
  match r with
  | .obj flds => (pyLookup flds "url").getD .null
  | _ => .null

/-- Drop the trailing whitespace of a list: the right half of
`str.strip()`. -/
def stripTail (cs : List Char) : List Char :=
  (cs.reverse.dropWhile pyIsSpace).reverse

/-- An input whose stripped form ends in a parenthesized non-empty
group over the class `[-\d.]`, preceded by a non-empty label whose
trimmed part contains no newline: exactly the inputs on which the
rating regex `^(.+?)\s*\(([-\d.]+)\)\s*$` matches.  Because the group
characters exclude parentheses, the group of such a decomposition is
the last parenthesized group of the input. -/
def hasRatingShape (s : String) : Prop :=
  ∃ lab num : List Char,
    (pyStrip s).data = lab ++ '(' :: (num ++ [')']) ∧ lab ≠ [] ∧
    '\n' ∉ pyStripList lab ∧ num ≠ [] ∧ ∀ c ∈ num, isNumClass c = true

/-- A page whose detail body has both a self-referential external
anchor and a conflicting `Source:` text line. -/
def pageT1 : Page :=
  { anchors := [⟨"https://mediabiasfactcheck.com/about/", "About"⟩,
                ⟨"https://example.com", "https://example.com"⟩],
    content := "Source: https://other.com\nCountry: USA" }

/-- A page with only the `Source:` text line. -/
def pageT2 : Page :=
  { anchors := [⟨"https://mediabiasfactcheck.com/about/", "About"⟩],
    content := "Source: https://other.com/x\nCountry: USA" }

/-- A page with neither source signal. -/
def pageT0 : Page :=
  { anchors := [], content := "Country: USA" }

/-- A page whose country line carries whitespace between the label and
the colon. -/
def pageWsColon : Page :=
  { anchors := [], content := "Country : USA" }

/-- A page whose country value sits on the following line. -/
def pageNlColon : Page :=
  { anchors := [], content := "Country:\n   USA " }

/-- Whether a case-insensitive occurrence of `pat` starts at the head
of `cs`. -/
def ciStartsWith (pat cs : List Char) : Bool :=
  (dropLitCI pat cs).isSome

/-- A url whose fetch and extraction would succeed with a string
country value: exactly the fetches that mark the url as processed. -/
def procOK (oracle : Oracle) (u : String) : Prop :=
  ∃ d c, oracle u = .ok d ∧ pyGetD d "country" (.str "") = Json.str c

/-- Well-formedness maintained by the extraction loop: every kept
record is a dict holding its processed url as a string, and the kept
urls are distinct. -/
def RunWF (st : LoopState) : Prop :=
  (∀ r ∈ st.results, ∃ flds u, r = .obj flds ∧
    pyLookup flds "url" = some (.str u) ∧
    jsonMem (.str u) st.scraped = true) ∧
  (st.results.map urlOfRec).Nodup

/-- Oracle of the resume counterexample: the single page extracts
cleanly but is Canadian, so the country filter drops it. -/
def oracle1 : Oracle := fun _ => .ok [("country", .str "Canada")]

/-- The single collected link of the resume counterexample. -/
def links1 : List LinkInfo := [⟨"n", "u", "Left"⟩]

/-! ## Claim C9: fetcher retry discipline -/

/-- Claim C9.  Fetcher retry discipline: a first-attempt 2xx returns the
body at once with no backoff sleeps; a non-2xx, non-429 status fails
immediately for that url with an error carrying the status and the url
and performs no further attempt; a 429 waits `30 * attemptNumber`
seconds and retries, each 429 spending one of the 3 budgeted attempts,
so three straight 429s exhaust the budget after sleeping 30, 60 and 90
seconds. -/
theorem fetch_url_retry_discipline (out : ℕ → String) (url : String) :
    (∀ body status, parseCurl (out 0) = (body, status) →
      pyStartsWith status "2" = true →
      fetch_url out url = (.ok body, [])) ∧
    (∀ status, (parseCurl (out 0)).2 = status → status ≠ "429" →
      pyStartsWith status "2" = false →
      fetch_url out url = (.httpErr status url, [])) ∧
    ((parseCurl (out 0)).2 = "429" →
      ∀ body status, parseCurl (out 1) = (body, status) →
      pyStartsWith status "2" = true →
      fetch_url out url = (.ok body, [30])) ∧
    ((parseCurl (out 0)).2 = "429" → (parseCurl (out 1)).2 = "429" →
      (parseCurl (out 2)).2 = "429" →
      fetch_url out url = (.exhausted url, [30, 60, 90])) := by
  have hstep : ∀ i rem sleeps, fetchGo out url i (rem + 1) sleeps =
      (if (parseCurl (out i)).2 = "429" then
        fetchGo out url (i + 1) rem (30 * (i + 1) :: sleeps)
      else if pyStartsWith (parseCurl (out i)).2 "2" then
        (.ok (parseCurl (out i)).1, sleeps.reverse)
      else (.httpErr (parseCurl (out i)).2 url, sleeps.reverse)) := by
    intro i rem sleeps
    show (match parseCurl (out i) with
      | (html, status) =>
        if status = "429" then
          fetchGo out url (i + 1) rem (30 * (i + 1) :: sleeps)
        else if pyStartsWith status "2" then (FetchRes.ok html, sleeps.reverse)
        else (.httpErr status url, sleeps.reverse)) = _
    obtain ⟨b, s⟩ := parseCurl (out i)
    rfl
  refine ⟨?_, ?_, ?_, ?_⟩
  · intro body status h h2
    have hne : status ≠ "429" := by
      intro he; rw [he] at h2; exact absurd h2 (by decide)
    show fetchGo out url 0 (2 + 1) [] = _
    rw [hstep]
    simp [h, hne, h2]
  · intro status h hne h2
    show fetchGo out url 0 (2 + 1) [] = _
    rw [hstep, h]
    simp [hne, h2]
  · intro h0 body status h1 h2
    have hne : status ≠ "429" := by
      intro he; rw [he] at h2; exact absurd h2 (by decide)
    show fetchGo out url 0 (2 + 1) [] = _
    rw [hstep, h0]
    simp only [if_pos rfl]
    show fetchGo out url 1 (1 + 1) [30] = _
    rw [hstep]
    simp [h1, hne, h2]
  · intro h0 h1 h2
    show fetchGo out url 0 (2 + 1) [] = _
    rw [hstep, h0]
    simp only [if_pos rfl]
    show fetchGo out url 1 (1 + 1) [30] = _
    rw [hstep, h1]
    simp only [if_pos rfl]
    show fetchGo out url 2 (0 + 1) [60, 30] = _
    rw [hstep, h2]
    simp only [if_pos rfl]
    rfl

/-- Witness for C9 at concrete transports. -/
theorem fetch_url_retry_discipline_witness :
    fetch_url (fun _ => "body\n200") "u" = (.ok "body", []) ∧
    fetch_url (fun _ => "x\n404") "u" = (.httpErr "404" "u", []) ∧
    fetch_url outW "u" = (.ok "body", [30, 60]) ∧
    fetch_url (fun _ => "x\n429") "u" = (.exhausted "u", [30, 60, 90]) :=
  ⟨(fetch_url_retry_discipline (fun _ => "body\n200") "u").1 "body" "200" rfl rfl,
   (fetch_url_retry_discipline (fun _ => "x\n404") "u").2.1 "404" rfl (by decide) rfl,
   rfl,
   (fetch_url_retry_discipline (fun _ => "x\n429") "u").2.2.2 rfl rfl rfl⟩

/-! ## Claim C6: the country filter -/

/-- Claim C6.  Country filter: for a link that is not skipped and whose
page fetch and extraction succeed with a string-valued country lookup,
the record is appended to the kept results exactly when
`country.upper() == "USA"`, and in either case the url joins the
processed set so the link is skipped for the rest of the run. -/
theorem country_filter (oracle : Oracle) (st : LoopState) (l : LinkInfo)
    (d0 : List (String × Json)) (c : String)
    (hskip : jsonMem (.str l.url) st.scraped = false)
    (hok : oracle l.url = .ok d0)
    (hc : pyGetD (withMeta d0 l) "country" (.str "") = .str c) :
    ((processLink oracle st l).results =
      if pyUpper c = "USA" then st.results ++ [.obj (withMeta d0 l)]
      else st.results) ∧
    (processLink oracle st l).scraped = st.scraped ++ [.str l.url] := by
  by_cases husa : pyUpper c = "USA" <;>
    simp [processLink, hskip, hok, hc, afterTry, husa] <;>
    split <;> simp

/-- Witness for C6: a kept `"Usa"` record and a dropped `"Canada"`
record. -/
theorem country_filter_witness :
    ((processLink (fun _ => .ok [("country", .str "Usa")])
        ⟨[], [], 0, 0, 0, [], []⟩ ⟨"n", "u", "Left"⟩).results =
      [.obj (withMeta [("country", .str "Usa")] ⟨"n", "u", "Left"⟩)]) ∧
    ((processLink (fun _ => .ok [("country", .str "Canada")])
        ⟨[], [], 0, 0, 0, [], []⟩ ⟨"n", "u", "Left"⟩).results = []) ∧
    ((processLink (fun _ => .ok [("country", .str "Canada")])
        ⟨[], [], 0, 0, 0, [], []⟩ ⟨"n", "u", "Left"⟩).scraped = [.str "u"]) := by
  refine ⟨?_, ?_, ?_⟩
  · have h := (country_filter (fun _ => .ok [("country", .str "Usa")])
      ⟨[], [], 0, 0, 0, [], []⟩ ⟨"n", "u", "Left"⟩ [("country", .str "Usa")]
      "Usa" rfl rfl rfl).1
    simpa using h
  · have h := (country_filter (fun _ => .ok [("country", .str "Canada")])
      ⟨[], [], 0, 0, 0, [], []⟩ ⟨"n", "u", "Left"⟩ [("country", .str "Canada")]
      "Canada" rfl rfl rfl).1
    simpa using h
  · have h := (country_filter (fun _ => .ok [("country", .str "Canada")])
      ⟨[], [], 0, 0, 0, [], []⟩ ⟨"n", "u", "Left"⟩ [("country", .str "Canada")]
      "Canada" rfl rfl rfl).2
    simpa using h

/-! ## Claim C10: page-level error atomicity -/

/-- Claim C10.  Error atomicity: when fetching or extracting a link
raises, the iteration only counts the error; the kept result set and
the processed-url set are unchanged, so the url stays eligible for a
later attempt. -/
theorem page_error_atomicity (oracle : Oracle) (st : LoopState) (l : LinkInfo)
    (hskip : jsonMem (.str l.url) st.scraped = false)
    (herr : oracle l.url = .error ()) :
    (processLink oracle st l).results = st.results ∧
    (processLink oracle st l).scraped = st.scraped ∧
    (processLink oracle st l).errors = st.errors + 1 ∧
    (processLink oracle st l).skipped = st.skipped := by
  simp only [processLink, hskip, herr, afterTry, Bool.false_eq_true,
    if_false]
  split <;> exact ⟨rfl, rfl, rfl, rfl⟩

/-- Witness for C10 at a concrete failing oracle. -/
theorem page_error_atomicity_witness :
    ((processLink (fun _ => .error ()) ⟨[.obj []], [.str "v"], 3, 4, 5, [], []⟩
        ⟨"n", "u", "Left"⟩).results = [.obj []]) ∧
    ((processLink (fun _ => .error ()) ⟨[.obj []], [.str "v"], 3, 4, 5, [], []⟩
        ⟨"n", "u", "Left"⟩).scraped = [.str "v"]) ∧
    ((processLink (fun _ => .error ()) ⟨[.obj []], [.str "v"], 3, 4, 5, [], []⟩
        ⟨"n", "u", "Left"⟩).errors = 5) := by
  have h := page_error_atomicity (fun _ => .error ())
    ⟨[.obj []], [.str "v"], 3, 4, 5, [], []⟩ ⟨"n", "u", "Left"⟩ rfl rfl
  exact ⟨h.1, h.2.1, h.2.2.1⟩

/-! ## Claim C3: the 25-page checkpoint boundary

The code increments `scraped_count` for every processed page, dropped
pages included, but the `continue` in the country-filter branch jumps
over the `scraped_count % 25 == 0` test, so a drop landing on a
25-boundary silently loses the checkpoint.  The run below processes 26
pages (no errors, no skips) with the 25th dropped by the filter: the
spec promises exactly one mid-run save, the code performs none. -/

/-- Claim C3.  Evaluation of the extraction phase on 26 processed links
(26 fetches, no errors, no skips, 25 kept) whose 25th page is dropped
by the country filter: the code performs no mid-run checkpoint save at
all, while the claim promises exactly one, after the 25th processed
page.  The unconditional final save still happens. -/
theorem checkpoint_boundary_eval :
    (runMain oracle26 links26 .absent).map
      (fun o => (o.st.saves.length, o.st.scraped_count, o.st.errors,
        o.st.skipped, o.st.fetched.length, o.st.results.length,
        o.finalSave.length)) =
    .ok (0, 26, 0, 0, 26, 25, 25) := by rfl

/-! ## Claim C4: checkpoint load is total and never fatal -/

lemma jsonBeq_str_str (a b : String) : jsonBeq (.str a) (.str b) = (a == b) := by
  simp [jsonBeq]

lemma jInsert_fresh (acc : List (Json × Json)) (k v : Json)
    (h : ∀ p ∈ acc, jsonBeq k p.1 = false) :
    jInsert acc k v = acc ++ [(k, v)] := by
  induction acc with
  | nil => rfl
  | cons p rest ih =>
      have hp := h p (by simp)
      simp only [jInsert, hp, Bool.false_eq_true, if_false, List.cons_append,
        List.cons.injEq, true_and]
      exact ih (fun q hq => h q (by simp [hq]))

lemma loadGo_ok (rs : List Json) : ∀ (acc : List (Json × Json)),
    urlKeyed rs →
    (acc.map Prod.fst ++ rs.map urlOfRec).Nodup →
    (∀ p ∈ acc, ∃ u, p.1 = .str u) →
    loadGo acc rs = .ok (acc ++ rs.map (fun r => (urlOfRec r, r))) := by
  induction rs with
  | nil => intro acc _ _ _; simp [loadGo]
  | cons r rs ih =>
      intro acc h1 h2 h3
      obtain ⟨flds, u, hr, hu⟩ := h1 r (by simp)
      subst hr
      have hkey : urlOfRec (.obj flds) = .str u := by simp [urlOfRec, hu]
      have hfresh : ∀ p ∈ acc, jsonBeq (.str u) p.1 = false := by
        intro p hp
        obtain ⟨u2, hp2⟩ := h3 p hp
        rw [hp2, jsonBeq_str_str]
        have : (Json.str u2) ∈ acc.map Prod.fst := by
          exact List.mem_map.mpr ⟨p, hp, by rw [hp2]⟩
        have hne : Json.str u2 ≠ Json.str u := by
          intro he
          have hmem : (Json.str u) ∈ acc.map Prod.fst := by rw [← he]; exact this
          have := (List.nodup_append.mp h2).2.2
          exact this hmem (by simp [hkey])
        have : u ≠ u2 := fun he => hne (by rw [he])
        exact beq_eq_false_iff_ne.mpr this
      simp only [loadGo, hu, jInsert_fresh acc (.str u) (.obj flds) hfresh]
      have h2' : ((acc ++ [((Json.str u), (Json.obj flds))]).map Prod.fst ++
          rs.map urlOfRec).Nodup := by
        simp only [List.map_append, List.map_cons, List.map_nil] at h2 ⊢
        simpa [hkey, List.append_assoc] using h2
      have h3' : ∀ p ∈ acc ++ [((Json.str u), (Json.obj flds))],
          ∃ u2, p.1 = .str u2 := by
        intro p hp
        rcases List.mem_append.mp hp with hp1 | hp2
        · exact h3 p hp1
        · simp at hp2; exact ⟨u, by rw [hp2]⟩
      have h1' : urlKeyed rs := fun q hq => h1 q (by simp [hq])
      rw [ih _ h1' h2' h3']
      simp [hkey]

/-- Claim C4 (amended).  Checkpoint load: an absent file, unparsable
JSON, or a leading record without a `url` key (whose `KeyError` is
caught) all yield the empty mapping; a list of records each carrying a
string url, with distinct urls, yields the url-to-record mapping.  But
load is not total: an unreadable file raises `OSError` and parsed
content whose first element is not a dict raises `TypeError`, neither
of which the code catches. -/
theorem load_existing_results_behaviour :
    load_existing_results .absent = .ok [] ∧
    load_existing_results .invalidJson = .ok [] ∧
    load_existing_results .unreadable = .error .osError ∧
    (∀ flds rs, pyLookup flds "url" = none →
      load_existing_results (.jsonContent (.arr (.obj flds :: rs))) = .ok []) ∧
    (∀ x rs, (∀ flds, x ≠ .obj flds) →
      load_existing_results (.jsonContent (.arr (x :: rs))) =
        .error .typeError) ∧
    (∀ rs, urlKeyed rs → (rs.map urlOfRec).Nodup →
      load_existing_results (.jsonContent (.arr rs)) =
        .ok (rs.map (fun r => (urlOfRec r, r)))) := by
  refine ⟨rfl, rfl, rfl, ?_, ?_, ?_⟩
  · intro flds rs h
    simp [load_existing_results, loadIter, loadGo, h]
  · intro x rs h
    cases x with
    | obj flds => exact absurd rfl (h flds)
    | null => rfl
    | boolVal b => rfl
    | num d => rfl
    | str s => rfl
    | arr l => rfl
  · intro rs h1 h2
    have := loadGo_ok rs [] h1 (by simpa using h2) (by simp)
    simp [load_existing_results, loadIter, this]

/-- Witness for C4 at concrete file states. -/
theorem load_existing_results_behaviour_witness :
    load_existing_results
        (.jsonContent (.arr [.obj [("a", .null)], .num ⟨0, 0⟩])) = .ok [] ∧
    load_existing_results (.jsonContent (.arr [.num ⟨0, 0⟩])) =
      .error .typeError ∧
    load_existing_results
        (.jsonContent (.arr [.obj [("url", .str "u"), ("country", .str "USA")]])) =
      .ok [(.str "u", .obj [("url", .str "u"), ("country", .str "USA")])] := by
  refine ⟨?_, ?_, ?_⟩
  · exact load_existing_results_behaviour.2.2.2.1 [("a", .null)]
      [.num ⟨0, 0⟩] rfl
  · exact load_existing_results_behaviour.2.2.2.2.1 (.num ⟨0, 0⟩) []
      (fun flds h => by cases h)
  · have := load_existing_results_behaviour.2.2.2.2.2
      [.obj [("url", .str "u"), ("country", .str "USA")]]
      (by intro r hr; simp at hr; exact ⟨_, "u", hr, rfl⟩)
      (by simp)
    simpa [urlOfRec, pyLookup] using this

/-- Counterexample for C4 as claimed: content that parses to a JSON
list whose element is not a dict makes `load_existing_results` raise
`TypeError` instead of returning the empty mapping, so load is not
"total and never fatal". -/
theorem load_existing_results_counterexample :
    load_existing_results (.jsonContent (.arr [.num ⟨0, 0⟩])) =
      .error .typeError ∧
    load_existing_results .unreadable = .error .osError := ⟨rfl, rfl⟩

/-! ## Claim C5: serialization shape of `save_results` -/

/-- Claim C5 (amended).  Save writes the JSON dump of the result list
first and then the CSV whose header is exactly the fixed
thirteen-column list; the records enter the JSON payload verbatim, so
a field absent from a record is omitted from its JSON object rather
than serialized as null; in the CSV row of a record, the cell of an
absent field is the empty string. -/
theorem save_results_shape (results : List Json) :
    save_results results =
      [.jsonWrite (.arr results),
       .csvWrite ["name", "url", "category", "source_url", "bias_rating",
         "bias_score", "factual_reporting", "factual_score", "country",
         "freedom_rating", "media_type", "traffic", "credibility"]
         (results.map csvRowOf)] ∧
    (∀ flds : List (String × Json), (csvRowOf (.obj flds)).length = 13) ∧
    (∀ (flds : List (String × Json)) (i : ℕ), i < 13 →
      pyLookup flds (FIELDNAMES.getD i "") = none →
      (csvRowOf (.obj flds)).getD i .null = .str "") := by
  refine ⟨rfl, fun flds => by simp [csvRowOf, FIELDNAMES], ?_⟩
  intro flds i hi hnone
  have hlen : FIELDNAMES.length = 13 := rfl
  have hi2 : i < FIELDNAMES.length := by rw [hlen]; exact hi
  have hget : (csvRowOf (.obj flds)).getD i .null =
      pyGetD flds (FIELDNAMES.getD i "") (.str "") := by
    simp only [csvRowOf]
    rw [List.getD_eq_getElem?_getD, List.getElem?_map,
      List.getElem?_eq_getElem hi2]
    simp [List.getD_eq_getElem?_getD, List.getElem?_eq_getElem hi2]
  rw [hget]
  have hnone2 : pyLookup flds (FIELDNAMES[i]?.getD "") = none := by
    rw [← List.getD_eq_getElem?_getD]; exact hnone
  simp [pyGetD, hnone2]

/-- Witness for C5: a record missing `traffic` yields an empty-string
cell in position 11 of its CSV row. -/
theorem save_results_shape_witness :
    save_results [.obj [("name", .str "x")]] =
      [.jsonWrite (.arr [.obj [("name", .str "x")]]),
       .csvWrite ["name", "url", "category", "source_url", "bias_rating",
         "bias_score", "factual_reporting", "factual_score", "country",
         "freedom_rating", "media_type", "traffic", "credibility"]
         [csvRowOf (.obj [("name", .str "x")])]] ∧
    (csvRowOf (.obj [("name", .str "x")])).getD 11 .null = .str "" := by
  refine ⟨?_, ?_⟩
  · exact (save_results_shape [.obj [("name", .str "x")]]).1
  · exact (save_results_shape [.obj [("name", .str "x")]]).2.2
      [("name", .str "x")] 11 (by decide) rfl

/-- Counterexample for C5 as claimed: the JSON payload written for a
record that lacks `traffic` is the record itself, whose object carries
no `traffic` key at all, not a `traffic: null` entry. -/
theorem save_results_counterexample :
    writtenJson (save_results [.obj [("name", .str "x")]]) =
      some (.arr [.obj [("name", .str "x")]]) ∧
    pyLookup [("name", Json.str "x")] "traffic" = none ∧
    pyLookup [("name", Json.str "x")] "traffic" ≠ some .null := by
  exact ⟨rfl, rfl, fun h => nomatch h⟩

/-! ## Claim C2: parse_rating_field

The lemmas below characterize the embedded regex matcher.  Success is
pinned down by the decomposition `label ++ ws ++ ( ++ group ++ )` of
the stripped input with the group over `[-\d.]` ending the string;
`tryTail_fails` shows the lazy label loop cannot stop early, and the
soundness lemmas show a match always yields such a decomposition. -/

lemma head_dropWhile_space (cs : List Char) :
    ∀ c r, cs.dropWhile pyIsSpace = c :: r → pyIsSpace c = false := by
  induction cs with
  | nil => intro c r h; simp [List.dropWhile] at h
  | cons a tl ih =>
      intro c r h
      rw [List.dropWhile_cons] at h
      by_cases ha : pyIsSpace a = true
      · rw [if_pos ha] at h; exact ih c r h
      · rw [if_neg ha] at h
        cases h
        simpa using ha

lemma stripTail_getLast (cs : List Char) :
    ∀ c, (stripTail cs).getLast? = some c → pyIsSpace c = false := by
  intro c h
  rw [stripTail, List.getLast?_reverse] at h
  obtain ⟨r, hr⟩ : ∃ r, cs.reverse.dropWhile pyIsSpace = c :: r := by
    cases he : cs.reverse.dropWhile pyIsSpace with
    | nil => rw [he] at h; cases h
    | cons x xs =>
        rw [he] at h
        simp only [List.head?] at h
        cases h
        exact ⟨xs, rfl⟩
  exact head_dropWhile_space _ c r hr

lemma stripTail_subset (cs : List Char) : stripTail cs ⊆ cs := by
  intro x hx
  rw [stripTail, List.mem_reverse] at hx
  exact List.mem_reverse.mp ((List.dropWhile_sublist pyIsSpace).subset hx)

lemma stripTail_append_ws (X W : List Char)
    (hW : ∀ c ∈ W, pyIsSpace c = true) :
    stripTail (X ++ W) = stripTail X := by
  unfold stripTail
  rw [List.reverse_append, List.dropWhile_append]
  have hnil : W.reverse.dropWhile pyIsSpace = [] :=
    List.dropWhile_eq_nil_iff.mpr (fun x hx => hW x (List.mem_reverse.mp hx))
  simp [hnil]

lemma stripTail_decomp (cs : List Char) :
    ∃ W, cs = stripTail cs ++ W ∧ ∀ c ∈ W, pyIsSpace c = true := by
  refine ⟨(cs.reverse.takeWhile pyIsSpace).reverse, ?_, ?_⟩
  · conv_lhs => rw [← List.reverse_reverse cs,
      ← List.takeWhile_append_dropWhile (p := pyIsSpace) (l := cs.reverse)]
    rw [List.reverse_append, stripTail]
  · intro c hc
    exact List.mem_takeWhile_imp (List.mem_reverse.mp hc)

lemma stripTail_ne_nil (cs : List Char) (c : Char) (r : List Char)
    (hc : pyIsSpace c = false) (h : cs = c :: r) : stripTail cs ≠ [] := by
  intro he
  have hall : ∀ x ∈ cs.reverse, pyIsSpace x = true := by
    apply List.dropWhile_eq_nil_iff.mp
    have := congrArg List.reverse he
    rw [stripTail, List.reverse_reverse] at this
    simpa using this
  have : pyIsSpace c = true := hall c (by simp [h])
  rw [this] at hc; cases hc

lemma pyStripList_head (cs : List Char) :
    ∀ c r, pyStripList cs = c :: r → pyIsSpace c = false := by
  intro c r h
  have hsub : pyStripList cs = stripTail (cs.dropWhile pyIsSpace) := rfl
  rw [hsub] at h
  have hmem : c ∈ stripTail (cs.dropWhile pyIsSpace) := by rw [h]; simp
  have hcs : c ∈ cs.dropWhile pyIsSpace := stripTail_subset _ hmem
  -- the head of the stripped list is its first character, which was not
  -- dropped, hence is not whitespace; we argue via the prefix property
  have hpre : stripTail (cs.dropWhile pyIsSpace) <+: cs.dropWhile pyIsSpace := by
    rw [stripTail]
    have hsuf : (cs.dropWhile pyIsSpace).reverse.dropWhile pyIsSpace <:+
        (cs.dropWhile pyIsSpace).reverse := List.dropWhile_suffix pyIsSpace
    simpa using List.reverse_prefix.mpr hsuf
  obtain ⟨t, ht⟩ := hpre
  rw [h] at ht
  exact head_dropWhile_space cs c (r ++ t) (by rw [← ht]; simp)

lemma pyStripList_getLast (cs : List Char) :
    ∀ c, (pyStripList cs).getLast? = some c → pyIsSpace c = false := by
  intro c h
  exact stripTail_getLast (cs.dropWhile pyIsSpace) c h

lemma split_class (N T : List Char) (hN : ∀ c ∈ N, isNumClass c = true) :
    (N ++ ')' :: T).takeWhile isNumClass = N ∧
    (N ++ ')' :: T).dropWhile isNumClass = ')' :: T := by
  induction N with
  | nil =>
      have h : isNumClass ')' = false := by decide
      simp [List.takeWhile_cons, List.dropWhile_cons, h]
  | cons a N ih =>
      have ha := hN a (by simp)
      have ih2 := ih (fun c hc => hN c (by simp [hc]))
      simp only [List.cons_append, List.takeWhile_cons, List.dropWhile_cons,
        ha, if_pos]
      exact ⟨by rw [ih2.1], by rw [ih2.2]⟩

lemma dropWhile_ws_all_append (W R : List Char)
    (hW : ∀ c ∈ W, pyIsSpace c = true) (hR : R.dropWhile pyIsSpace = R) :
    (W ++ R).dropWhile pyIsSpace = R := by
  rw [List.dropWhile_append]
  have hnil : W.dropWhile pyIsSpace = [] := List.dropWhile_eq_nil_iff.mpr hW
  simp [hnil, hR]

lemma tryTail_succeeds (W N T : List Char)
    (hW : ∀ c ∈ W, pyIsSpace c = true) (hN0 : N ≠ [])
    (hN : ∀ c ∈ N, isNumClass c = true)
    (hT : T.all pyIsSpace = true) :
    tryTail (W ++ '(' :: (N ++ ')' :: T)) = some N := by
  have hdrop : (W ++ '(' :: (N ++ ')' :: T)).dropWhile pyIsSpace =
      '(' :: (N ++ ')' :: T) := by
    apply dropWhile_ws_all_append _ _ hW
    rw [List.dropWhile_cons]
    simp [pyIsSpace]
  have hsp := split_class N T hN
  simp only [tryTail, hdrop, if_pos rfl, hsp.1, hsp.2]
  simp [List.isEmpty_iff, hN0, hT]

/-- Unfolding equation of `goLazy`. -/
lemma goLazy_eq (labelRev rest : List Char) :
    goLazy labelRev rest =
      match tryTail rest with
      | some num => some (labelRev.reverse, num)
      | none =>
          match rest with
          | [] => none
          | c :: rest2 =>
              if c = '\n' then none else goLazy (c :: labelRev) rest2 := by
  cases rest with
  | nil => rw [goLazy]
  | cons c t => rw [goLazy]

/-- Unfolding equation of `reMatchRating`. -/
lemma reMatchRating_unfold (cs : List Char) :
    reMatchRating cs =
      match cs with
      | [] => none
      | c :: rest => if c = '\n' then none else goLazy [c] rest := by
  cases cs <;> rfl

lemma tryTail_fails (D W N : List Char)
    (hD0 : D ≠ []) (hDlast : ∀ c, D.getLast? = some c → pyIsSpace c = false)
    (hW : ∀ c ∈ W, pyIsSpace c = true)
    (hN : ∀ c ∈ N, isNumClass c = true) :
    tryTail (D ++ W ++ '(' :: (N ++ [')'])) = none := by
  -- the leading whitespace cannot swallow all of D
  have hD' : D.dropWhile pyIsSpace ≠ [] := by
    intro he
    have hall := List.dropWhile_eq_nil_iff.mp he
    have hlast := List.getLast?_eq_getLast D hD0
    have hmem := List.getLast_mem hD0
    have := hDlast (D.getLast hD0) hlast
    rw [hall _ hmem] at this; cases this
  obtain ⟨d, D2, hdD⟩ : ∃ d D2, D.dropWhile pyIsSpace = d :: D2 := by
    cases h : D.dropWhile pyIsSpace with
    | nil => exact absurd h hD'
    | cons x xs => exact ⟨x, xs, rfl⟩
  have hdrop : (D ++ W ++ '(' :: (N ++ [')'])).dropWhile pyIsSpace =
      d :: (D2 ++ W ++ '(' :: (N ++ [')'])) := by
    rw [List.append_assoc, List.dropWhile_append, hdD]
    simp
  simp only [tryTail, hdrop]
  by_cases hd : d = '('
  · rw [if_pos hd]
    set R := D2 ++ W ++ '(' :: (N ++ [')']) with hR
    have hparen : '(' ∈ R := by
      rw [hR, List.append_assoc]
      exact List.mem_append_right _ (by simp)
    by_cases hnum : (R.takeWhile isNumClass).isEmpty
    · simp [hnum]
    · rw [if_neg hnum]
      cases hrest3 : R.dropWhile isNumClass with
      | nil =>
          exfalso
          have hall := List.dropWhile_eq_nil_iff.mp hrest3
          have := hall '(' hparen
          simp [isNumClass, isDigitChar] at this
      | cons c2 rest4 =>
          by_cases hc2 : c2 = ')'
          · simp only [List.head?, List.tail, hc2, if_pos rfl]
            have hRsplit : R = R.takeWhile isNumClass ++ (c2 :: rest4) := by
              rw [← hrest3, List.takeWhile_append_dropWhile]
            by_cases hall4 : rest4.all pyIsSpace = true
            · exfalso
              -- the real open paren lives after the matched close paren,
              -- so the supposed trailing whitespace contains it
              have hmem : '(' ∈ R.takeWhile isNumClass ++ (c2 :: rest4) := by
                rw [← hRsplit]; exact hparen
              rcases List.mem_append.mp hmem with hin | hin
              · have := List.mem_takeWhile_imp hin
                simp [isNumClass, isDigitChar] at this
              · rcases List.mem_cons.mp hin with he | hin
                · rw [hc2] at he; cases he
                · have := List.all_eq_true.mp hall4 _ hin
                  simp [pyIsSpace] at this
            · simp [hall4]
          · simp [List.head?, hc2]
  · simp [hd]

lemma goLazy_run (D : List Char) : ∀ (accRev W N : List Char),
    (∀ c ∈ D, c ≠ '\n') →
    (∀ c, D.getLast? = some c → pyIsSpace c = false) →
    (∀ c ∈ W, pyIsSpace c = true) → N ≠ [] →
    (∀ c ∈ N, isNumClass c = true) →
    goLazy accRev (D ++ W ++ '(' :: (N ++ [')'])) =
      some (accRev.reverse ++ D, N) := by
  induction D with
  | nil =>
      intro accRev W N _ _ hW hN0 hN
      have hsucc := tryTail_succeeds W N [] hW hN0 hN rfl
      rw [List.nil_append, goLazy_eq, hsucc, List.append_nil]
  | cons c D ih =>
      intro accRev W N hnl hlast hW hN0 hN
      have hfail := tryTail_fails (c :: D) W N (by simp) hlast hW hN
      rw [goLazy_eq]
      rw [show (c :: D) ++ W ++ '(' :: (N ++ [')']) =
        c :: (D ++ W ++ '(' :: (N ++ [')'])) by simp] at hfail ⊢
      rw [hfail]
      have hc : c ≠ '\n' := hnl c (by simp)
      simp only [if_neg hc]
      have hlast2 : ∀ x, D.getLast? = some x → pyIsSpace x = false := by
        intro x hx
        apply hlast
        cases D with
        | nil => cases hx
        | cons y ys => rw [List.getLast?_cons_cons]; exact hx
      rw [ih (c :: accRev) W N (fun x hx => hnl x (by simp [hx])) hlast2 hW
        hN0 hN]
      simp

/-- Success of the full matcher on a decomposed stripped input. -/
lemma reMatchRating_eq (t lab num : List Char)
    (ht : t = lab ++ '(' :: (num ++ [')']))
    (hlab : lab ≠ [])
    (hhead : ∀ c r, lab = c :: r → pyIsSpace c = false)
    (hnl : '\n' ∉ stripTail lab)
    (hnum0 : num ≠ []) (hnum : ∀ c ∈ num, isNumClass c = true) :
    reMatchRating t = some (stripTail lab, num) := by
  obtain ⟨W, hWdec, hWws⟩ := stripTail_decomp lab
  obtain ⟨c, D2, hD⟩ : ∃ c D2, stripTail lab = c :: D2 := by
    cases hlc : lab with
    | nil => exact absurd hlc hlab
    | cons x xs =>
        rw [← hlc]
        have hne := stripTail_ne_nil lab x xs (hhead x xs hlc) hlc
        cases hst : stripTail lab with
        | nil => exact absurd hst hne
        | cons y ys => exact ⟨y, ys, rfl⟩
  have hsplit : t = c :: (D2 ++ W ++ '(' :: (num ++ [')'])) := by
    rw [ht]
    conv_lhs => rw [hWdec]
    rw [hD]
    simp
  have hnl2 : ∀ x ∈ (c :: D2), x ≠ '\n' := by
    intro x hx he
    rw [← hD] at hx
    rw [he] at hx
    exact hnl hx
  have hlast2 : ∀ x, (c :: D2).getLast? = some x → pyIsSpace x = false := by
    intro x hx
    exact stripTail_getLast lab x (by rw [hD]; exact hx)
  rw [hsplit]
  have hcnl : c ≠ '\n' := hnl2 c (by simp)
  rw [reMatchRating_unfold]
  simp only [if_neg hcnl]
  have hlast3 : ∀ x, D2.getLast? = some x → pyIsSpace x = false := by
    intro x hx
    apply hlast2
    cases D2 with
    | nil => cases hx
    | cons y ys => rw [List.getLast?_cons_cons]; exact hx
  rw [goLazy_run D2 [c] W num (fun x hx => hnl2 x (by simp [hx])) hlast3
    hWws hnum0 hnum]
  rw [hD]
  rfl

/-- Soundness of `tryTail`: success exhibits the decomposition. -/
lemma tryTail_sound (rest num : List Char) (h : tryTail rest = some num) :
    ∃ W T, rest = W ++ '(' :: (num ++ ')' :: T) ∧
      (∀ c ∈ W, pyIsSpace c = true) ∧ num ≠ [] ∧
      (∀ c ∈ num, isNumClass c = true) ∧ T.all pyIsSpace = true := by
  cases hdrop : rest.dropWhile pyIsSpace with
  | nil => simp [tryTail, hdrop] at h
  | cons c rest2 =>
      simp only [tryTail, hdrop] at h
      by_cases hc : c = '('
      · rw [if_pos hc] at h
        by_cases hnum : (rest2.takeWhile isNumClass).isEmpty
        · rw [if_pos hnum] at h; cases h
        · rw [if_neg hnum] at h
          cases hrest3 : rest2.dropWhile isNumClass with
          | nil => rw [hrest3] at h; simp at h
          | cons c2 rest4 =>
              rw [hrest3] at h
              simp only [List.head?_cons, List.tail_cons,
                Option.some.injEq] at h
              by_cases hc2 : c2 = ')'
              · rw [if_pos hc2] at h
                by_cases hall : rest4.all pyIsSpace = true
                · rw [if_pos hall] at h
                  injection h with hnumeq
                  refine ⟨rest.takeWhile pyIsSpace, rest4, ?_, ?_, ?_, ?_, hall⟩
                  · conv_lhs => rw [← List.takeWhile_append_dropWhile
                      (p := pyIsSpace) (l := rest)]
                    rw [hdrop, hc]
                    congr 1
                    rw [← hnumeq]
                    conv_lhs => rw [← List.takeWhile_append_dropWhile
                      (p := isNumClass) (l := rest2)]
                    rw [hrest3, hc2]
                  · intro x hx; exact List.mem_takeWhile_imp hx
                  · rw [← hnumeq]
                    intro he
                    rw [he] at hnum
                    simp at hnum
                  · intro x hx
                    rw [← hnumeq] at hx
                    exact List.mem_takeWhile_imp hx
                · rw [if_neg hall] at h; cases h
              · rw [if_neg hc2] at h; cases h
      · rw [if_neg hc] at h; cases h

/-- Soundness of the lazy loop: success exhibits the consumed label. -/
lemma goLazy_sound (rest : List Char) : ∀ accRev lab num,
    goLazy accRev rest = some (lab, num) →
    ∃ D rest2, rest = D ++ rest2 ∧ lab = accRev.reverse ++ D ∧
      (∀ c ∈ D, c ≠ '\n') ∧ tryTail rest2 = some num := by
  induction rest with
  | nil =>
      intro accRev lab num h
      rw [goLazy_eq] at h
      cases htt : tryTail [] with
      | some n =>
          simp [htt] at h
          obtain ⟨h1, h2⟩ := h
          exact ⟨[], [], by simp, by simp [← h1], by simp, by rw [htt, h2]⟩
      | none => simp [htt] at h
  | cons c rest ih =>
      intro accRev lab num h
      rw [goLazy_eq] at h
      cases htt : tryTail (c :: rest) with
      | some n =>
          simp [htt] at h
          obtain ⟨h1, h2⟩ := h
          exact ⟨[], c :: rest, by simp, by simp [← h1], by simp,
            by rw [htt, h2]⟩
      | none =>
          simp only [htt] at h
          by_cases hc : c = '\n'
          · rw [if_pos hc] at h; cases h
          · rw [if_neg hc] at h
            obtain ⟨D, rest2, hsplit, hlab, hnl, htail⟩ :=
              ih (c :: accRev) lab num h
            refine ⟨c :: D, rest2, by simp [hsplit], ?_, ?_, htail⟩
            · rw [hlab]; simp
            · intro x hx
              rcases List.mem_cons.mp hx with he | hx
              · rw [he]; exact hc
              · exact hnl x hx

/-- Soundness of the matcher: a match exhibits the rating shape. -/
lemma reMatchRating_sound (s : String) (lab num : List Char)
    (h : reMatchRating (pyStrip s).data = some (lab, num)) :
    hasRatingShape s := by
  cases hcs : (pyStrip s).data with
  | nil => rw [hcs] at h; cases h
  | cons c rest =>
      rw [hcs] at h
      rw [reMatchRating] at h
      by_cases hc : c = '\n'
      · rw [if_pos hc] at h; cases h
      · rw [if_neg hc] at h
        obtain ⟨D, rest2, hsplit, hlab, hnlD, htail⟩ :=
          goLazy_sound rest [c] lab num h
        obtain ⟨W, T, hrest2, hW, hnum0, hnum, hT⟩ :=
          tryTail_sound rest2 num htail
        -- the trailing whitespace run T must be empty: the stripped
        -- string has a non-whitespace last character
        have hTnil : T = [] := by
          cases hTc : T with
          | nil => rfl
          | cons t ts =>
              exfalso
              have hlastmem : (pyStrip s).data.getLast? =
                  some ((t :: ts).getLast (by simp)) := by
                rw [hcs, hsplit, hrest2, hTc]
                rw [show (c :: (D ++ (W ++ '(' :: (num ++ ')' :: t :: ts)))) =
                  ((c :: (D ++ W ++ '(' :: (num ++ [')'])))) ++ (t :: ts) by
                    simp]
                rw [List.getLast?_append]
                rw [List.getLast?_eq_getLast (t :: ts) (by simp)]
                rfl
              have hws := pyStripList_getLast s.data _ hlastmem
              have : pyIsSpace ((t :: ts).getLast (by simp)) = true := by
                rw [hTc] at hT
                exact List.all_eq_true.mp hT _ (List.getLast_mem (by simp))
              rw [this] at hws; cases hws
        refine ⟨(c :: D) ++ W, num, ?_, by simp, ?_, hnum0, hnum⟩
        · rw [hcs, hsplit, hrest2, hTnil]
          simp
        · -- the trimmed label contains no newline: its characters come
          -- from the newline-free `c :: D`
          intro hmem
          have hsub : pyStripList ((c :: D) ++ W) = stripTail (c :: D) := by
            have hh : ((c :: D) ++ W).dropWhile pyIsSpace = (c :: D) ++ W := by
              rw [List.cons_append, List.dropWhile_cons]
              have hcs2 : pyIsSpace c = false := by
                have := pyStripList_head s.data c rest hcs
                exact this
              simp [hcs2]
            show stripTail (((c :: D) ++ W).dropWhile pyIsSpace) = _
            rw [hh, stripTail_append_ws _ _ hW]
          rw [hsub] at hmem
          have := stripTail_subset _ hmem
          rcases List.mem_cons.mp this with he | hin
          · exact hc he.symm
          · exact hnlD _ hin rfl

/-- Claim C2 (amended).  For every input whose stripped form is
`LABEL(num)`-shaped — a non-empty label whose trimmed part has no
newline, arbitrary whitespace, and a final parenthesized non-empty
group over `[-\d.]` (necessarily the last parenthesized group) —
`parse_rating_field` returns the pair of the trimmed label and the
parsed float when the group is a valid Python float literal and raises
`ValueError` when it is not (e.g. group `-` or `1.2.3`); for every
input without such a shape it returns the trimmed original string
paired with null and does not raise. -/
theorem parse_rating_field_spec :
    (∀ (s : String) (lab num : List Char),
      (pyStrip s).data = lab ++ '(' :: (num ++ [')']) →
      lab ≠ [] → '\n' ∉ pyStripList lab → num ≠ [] →
      (∀ c ∈ num, isNumClass c = true) →
      parse_rating_field s =
        (match pyFloatParse num with
         | some d => .ok (String.mk (pyStripList lab), some d)
         | none => .error ())) ∧
    (∀ s : String, ¬ hasRatingShape s →
      parse_rating_field s = .ok (pyStrip s, none)) := by
  constructor
  · intro s lab num hdec hlab hnl hnum0 hnum
    have hhead : ∀ c r, lab = c :: r → pyIsSpace c = false := by
      intro c r hlc
      apply pyStripList_head s.data c (r ++ '(' :: (num ++ [')']))
      show pyStripList s.data = _
      have : (pyStrip s).data = pyStripList s.data := rfl
      rw [← this, hdec, hlc]
      simp
    have hstl : pyStripList lab = stripTail lab := by
      show stripTail (lab.dropWhile pyIsSpace) = stripTail lab
      congr 1
      cases hlc : lab with
      | nil => rfl
      | cons c r =>
          rw [List.dropWhile_cons]
          simp [hhead c r hlc]
    have hmatch := reMatchRating_eq (pyStrip s).data lab num hdec hlab hhead
      (by rw [← hstl]; exact hnl) hnum0 hnum
    have hDws : pyStripList (stripTail lab) = stripTail lab := by
      obtain ⟨c, D2, hD⟩ : ∃ c D2, stripTail lab = c :: D2 := by
        cases hlc : lab with
        | nil => exact absurd hlc hlab
        | cons x xs =>
            rw [← hlc]
            have hne := stripTail_ne_nil lab x xs (hhead x xs hlc) hlc
            cases hst : stripTail lab with
            | nil => exact absurd hst hne
            | cons y ys => exact ⟨y, ys, rfl⟩
      have hheadD : pyIsSpace c = false := by
        have hpre : stripTail lab <+: lab := by
          obtain ⟨W, hWdec, hWws⟩ := stripTail_decomp lab
          exact ⟨W, hWdec.symm⟩
        obtain ⟨t, ht⟩ := hpre
        rw [hD] at ht
        exact hhead c (D2 ++ t) (by rw [← ht]; simp)
      show stripTail ((stripTail lab).dropWhile pyIsSpace) = stripTail lab
      rw [hD, List.dropWhile_cons]
      simp only [hheadD, Bool.false_eq_true, if_false]
      rw [← hD]
      -- stripping the tail twice is stripping it once
      unfold stripTail
      rw [List.reverse_reverse]
      have : ((lab.reverse.dropWhile pyIsSpace).dropWhile pyIsSpace) =
          lab.reverse.dropWhile pyIsSpace := by
        cases hx : lab.reverse.dropWhile pyIsSpace with
        | nil => rfl
        | cons y ys =>
            rw [List.dropWhile_cons]
            simp [head_dropWhile_space lab.reverse y ys hx]
      rw [this]
    simp only [parse_rating_field, hmatch]
    cases pyFloatParse num with
    | none => rfl
    | some d =>
        simp only []
        rw [show pyStrip (String.mk (stripTail lab)) =
          String.mk (pyStripList (stripTail lab)) from rfl, hDws, hstl]
  · intro s hshape
    cases hm : reMatchRating (pyStrip s).data with
    | none => simp [parse_rating_field, hm]
    | some pr =>
        exfalso
        exact hshape (reMatchRating_sound s pr.1 pr.2 (by rw [hm]))

/-- Parenthesized groups force a closing parenthesis at the end of the
stripped input, so inputs not ending in one have no rating shape. -/
lemma not_hasRatingShape_of_getLast (s : String)
    (h : (pyStrip s).data.getLast? ≠ some ')') : ¬ hasRatingShape s := by
  rintro ⟨lab, num, hdec, -, -, -, -⟩
  apply h
  rw [hdec]
  rw [show lab ++ '(' :: (num ++ [')']) =
    (lab ++ '(' :: num) ++ [')'] by simp]
  exact List.getLast?_concat _

/-- Witness for C2: a matching input with a valid float, a matching
input with two groups (the last one is parsed), and a shapeless
input. -/
theorem parse_rating_field_spec_witness :
    parse_rating_field "LEFT (-5.3)" = .ok ("LEFT", some ⟨-53, 1⟩) ∧
    parse_rating_field "A (1) (2)" = .ok ("A (1)", some ⟨2, 0⟩) ∧
    parse_rating_field "LEAST BIASED" = .ok ("LEAST BIASED", none) := by
  refine ⟨?_, ?_, ?_⟩
  · have h := parse_rating_field_spec.1 "LEFT (-5.3)" "LEFT ".data
      "-5.3".data (by decide) (by decide) (by decide) (by decide) (by decide)
    rw [h]; rfl
  · have h := parse_rating_field_spec.1 "A (1) (2)" "A (1) ".data
      "2".data (by decide) (by decide) (by decide) (by decide) (by decide)
    rw [h]; rfl
  · have h := parse_rating_field_spec.2 "LEAST BIASED"
      (not_hasRatingShape_of_getLast _ (by decide))
    rw [h]; rfl

/-- Counterexample for C2 as claimed: on `"LEFT (-)"` the regex matches
with group `-`, and `float("-")` raises `ValueError`, so the function
raises rather than returning a pair. -/
theorem parse_rating_field_counterexample :
    parse_rating_field "LEFT (-)" = .error () ∧
    parse_rating_field "A (1.2.3)" = .error () := ⟨rfl, rfl⟩

/-! ## Claim C7: two-tier source-url recovery -/

lemma pyLookup_set_self (d : List (String × Json)) (k : String) (v : Json) :
    pyLookup (pyDictSet d k v) k = some v := by
  induction d with
  | nil => simp [pyDictSet, pyLookup]
  | cons p rest ih =>
      by_cases hp : p.1 = k
      · simp [pyDictSet, hp, pyLookup]
      · obtain ⟨k0, v0⟩ := p
        simp only at hp
        simp [pyDictSet, hp, pyLookup, ih]

lemma pyLookup_set_ne (d : List (String × Json)) (k k2 : String) (v : Json)
    (h : k2 ≠ k) : pyLookup (pyDictSet d k v) k2 = pyLookup d k2 := by
  induction d with
  | nil => simp [pyDictSet, pyLookup, Ne.symm h]
  | cons p rest ih =>
      obtain ⟨k0, v0⟩ := p
      by_cases hp : k0 = k
      · subst hp
        simp only [pyDictSet, if_pos rfl]
        simp [pyLookup, Ne.symm h]
      · simp only [pyDictSet, if_neg hp]
        by_cases h2 : k0 = k2
        · simp [pyLookup, h2]
        · simp [pyLookup, h2, ih]

lemma pyLookup_pop_ne (d : List (String × Json)) (k k2 : String)
    (h : k2 ≠ k) : pyLookup (pyDictPop d k) k2 = pyLookup d k2 := by
  induction d with
  | nil => simp [pyDictPop]
  | cons p rest ih =>
      obtain ⟨k0, v0⟩ := p
      by_cases hp : k0 = k
      · subst hp
        simp only [pyDictPop, if_pos rfl]
        simp [pyLookup, Ne.symm h]
      · simp only [pyDictPop, if_neg hp]
        by_cases h2 : k0 = k2
        · simp [pyLookup, h2]
        · simp [pyLookup, h2, ih]

lemma findSourceAnchor_eq_find? (anchors : List Anchor) :
    findSourceAnchor anchors = (anchors.find? anchorOK).map Anchor.href := by
  induction anchors with
  | nil => rfl
  | cons a rest ih =>
      by_cases ha : anchorOK a
      · simp [findSourceAnchor, List.find?_cons, ha]
      · simp only [Bool.not_eq_true] at ha
        simp [findSourceAnchor, List.find?_cons, ha, ih]

lemma lookup_foldPatterns_preserve (kvs : List (String × String))
    (content : String) (k : String) :
    (∀ kv ∈ kvs, kv.1 ≠ k) →
    ∀ d, pyLookup (kvs.foldl (patternStep content) d) k = pyLookup d k := by
  induction kvs with
  | nil => intro _ d; rfl
  | cons kv rest ih =>
      intro hk d
      rw [List.foldl_cons,
        ih (fun q hq => hk q (List.mem_cons_of_mem _ hq)) _]
      unfold patternStep
      cases labelValue kv.2 content with
      | none => rfl
      | some v =>
          exact pyLookup_set_ne _ _ _ _ (Ne.symm (hk kv (by simp)))

lemma lookup_applyRating_ne (d d2 : List (String × Json))
    (raw lk sk k2 : String) (h1 : k2 ≠ raw) (h2 : k2 ≠ lk) (h3 : k2 ≠ sk)
    (h : applyRating d raw lk sk = .ok d2) :
    pyLookup d2 k2 = pyLookup d k2 := by
  unfold applyRating at h
  cases hl : pyLookup d raw with
  | none =>
      simp only [hl] at h
      injection h with h4
      rw [← h4, pyLookup_set_ne _ _ _ _ h3, pyLookup_set_ne _ _ _ _ h2]
  | some v =>
      cases v with
      | str s =>
          simp only [hl] at h
          cases hp : parse_rating_field s with
          | error e => simp only [hp] at h; cases h
          | ok pr =>
              simp only [hp] at h
              injection h with h4
              rw [← h4, pyLookup_set_ne _ _ _ _ h3,
                pyLookup_set_ne _ _ _ _ h2, pyLookup_pop_ne _ _ _ h1]
      | null => simp only [hl] at h; cases h
      | boolVal b => simp only [hl] at h; cases h
      | num dd => simp only [hl] at h; cases h
      | arr l => simp only [hl] at h; cases h
      | obj l => simp only [hl] at h; cases h

/-- Claim C7.  Two-tier source-url recovery with tier 1 winning: on a
successfully extracted page, `source_url` is the href of the first
anchor (in document order) whose text equals its non-empty target and
whose target does not start with the site's own base url; the `Source:`
text search is consulted only when no such anchor exists, and when it
too fails the field is null rather than an error. -/
theorem scrape_source_source_url (p : Page) (d : List (String × Json))
    (hok : scrape_source p = .ok d) :
    pyLookup d "source_url" =
      some (match (p.anchors.find? anchorOK).map Anchor.href with
        | some u => Json.str u
        | none =>
            match searchSource p.content.data with
            | some g => Json.str (pyStrip (String.mk g))
            | none => Json.null) := by
  simp only [scrape_source] at hok
  rw [← findSourceAnchor_eq_find?]
  set v : Json := (match findSourceAnchor p.anchors with
    | some u => Json.str u
    | none =>
        match searchSource p.content.data with
        | some g => Json.str (pyStrip (String.mk g))
        | none => Json.null) with hv
  have hd1 : pyLookup (pyDictSet [] "source_url" v) "source_url" = some v :=
    pyLookup_set_self _ _ _
  have hd2 : pyLookup (applyPatterns (pyDictSet [] "source_url" v)
      p.content) "source_url" = some v := by
    rw [applyPatterns, lookup_foldPatterns_preserve _ _ _ (by decide), hd1]
  cases hb : applyRating (applyPatterns (pyDictSet [] "source_url" v)
      p.content) "bias_rating_raw" "bias_rating" "bias_score" with
  | error e => simp only [hb] at hok; cases hok
  | ok d3 =>
      simp only [hb] at hok
      have hd3 : pyLookup d3 "source_url" = some v := by
        rw [lookup_applyRating_ne _ _ _ _ _ _ (by decide) (by decide)
          (by decide) hb, hd2]
      have hd4 : pyLookup d "source_url" = some v := by
        rw [lookup_applyRating_ne _ _ _ _ _ _ (by decide) (by decide)
          (by decide) hok, hd3]
      rw [hd4, hv]

/-- Witness for C7: the anchor wins over a conflicting `Source:` line;
the `Source:` line is used when no anchor qualifies; neither signal
yields null. -/
theorem scrape_source_source_url_witness :
    (∃ d, scrape_source pageT1 = .ok d ∧
      pyLookup d "source_url" = some (.str "https://example.com")) ∧
    (∃ d, scrape_source pageT2 = .ok d ∧
      pyLookup d "source_url" = some (.str "https://other.com/x")) ∧
    (∃ d, scrape_source pageT0 = .ok d ∧
      pyLookup d "source_url" = some .null) := by
  refine ⟨⟨_, rfl, ?_⟩, ⟨_, rfl, ?_⟩, ⟨_, rfl, ?_⟩⟩
  · rw [scrape_source_source_url pageT1 _ rfl]; rfl
  · rw [scrape_source_source_url pageT2 _ rfl]; rfl
  · rw [scrape_source_source_url pageT0 _ rfl]; rfl

/-! ## Claim C8: Label-colon-value extraction -/

lemma dropLitCI_full (pat : List Char) : ∀ mid post,
    pat.map pyLowerChar = mid.map pyLowerChar →
    dropLitCI pat (mid ++ post) = some post := by
  induction pat with
  | nil =>
      intro mid post hm
      cases mid with
      | nil => rfl
      | cons m ms => cases hm
  | cons p ps ih =>
      intro mid post hm
      cases mid with
      | nil => cases hm
      | cons m ms =>
          simp only [List.map_cons, List.cons.injEq] at hm
          simp only [List.cons_append, dropLitCI, hm.1, if_pos rfl]
          exact ih ms post hm.2

lemma afterColon_ws (W : List Char) : ∀ (c : Char) (r : List Char),
    (∀ x ∈ W, pyIsSpace x = true) → pyIsSpace c = false →
    afterColon (W ++ c :: r) =
      some ((c :: r).takeWhile (fun x => x ≠ '\n')) := by
  induction W with
  | nil =>
      intro c r _ hc
      rw [List.nil_append, afterColon]
      simp only [hc, Bool.false_eq_true, if_false]
      rfl
  | cons w W ih =>
      intro c r hW hc
      rw [List.cons_append, afterColon]
      have hw : pyIsSpace w = true := hW w (by simp)
      simp only [hw, if_pos rfl]
      rw [ih c r (fun x hx => hW x (by simp [hx])) hc]
      simp

lemma matchLabelAt_none_of_ci (lab cs : List Char)
    (h : ciStartsWith lab cs = false) : matchLabelAt lab cs = none := by
  unfold matchLabelAt
  cases hd : dropLitCI lab cs with
  | none => rfl
  | some rest => rw [ciStartsWith, hd] at h; cases h

/-- Unfolding equation of `searchLabel` on a cons. -/
lemma searchLabel_cons (lab : List Char) (c : Char) (rest : List Char) :
    searchLabel lab (c :: rest) =
      match matchLabelAt lab (c :: rest) with
      | some g => some g
      | none => searchLabel lab rest := by
  rw [searchLabel]

lemma searchLabel_none (lab : List Char) (content : List Char)
    (h : ∀ i, i < content.length →
      ciStartsWith lab (content.drop i) = false) :
    searchLabel lab content = none := by
  induction content with
  | nil => rfl
  | cons c rest ih =>
      rw [searchLabel_cons,
        matchLabelAt_none_of_ci lab (c :: rest) (by simpa using h 0 (by simp))]
      exact ih (fun i hi => by simpa using h (i + 1) (by simpa using hi))

lemma searchLabel_found (pre : List Char) :
    ∀ (lab mid W r : List Char) (c : Char),
    lab ≠ [] →
    lab.map pyLowerChar = mid.map pyLowerChar →
    (∀ i, i < pre.length →
      ciStartsWith lab ((pre ++ mid ++ (W ++ c :: r)).drop i) = false) →
    (∀ x ∈ W, pyIsSpace x = true) → pyIsSpace c = false →
    searchLabel lab (pre ++ mid ++ (W ++ c :: r)) =
      some ((c :: r).takeWhile (fun x => x ≠ '\n')) := by
  induction pre with
  | nil =>
      intro lab mid W r c hlab hm _ hW hc
      obtain ⟨m, ms, hmid⟩ : ∃ m ms, mid = m :: ms := by
        cases mid with
        | nil =>
            cases lab with
            | nil => exact absurd rfl hlab
            | cons p ps => cases hm
        | cons m ms => exact ⟨m, ms, rfl⟩
      subst hmid
      rw [List.nil_append, List.cons_append, searchLabel_cons]
      have hmatch : matchLabelAt lab (m :: (ms ++ (W ++ c :: r))) =
          some ((c :: r).takeWhile (fun x => x ≠ '\n')) := by
        unfold matchLabelAt
        rw [show m :: (ms ++ (W ++ c :: r)) = (m :: ms) ++ (W ++ c :: r) by
          simp]
        rw [dropLitCI_full lab (m :: ms) (W ++ c :: r) hm]
        exact afterColon_ws W c r hW hc
      rw [hmatch]
  | cons p pre ih =>
      intro lab mid W r c hlab hm hpre hW hc
      rw [show (p :: pre) ++ mid ++ (W ++ c :: r) =
        p :: (pre ++ mid ++ (W ++ c :: r)) by simp, searchLabel_cons]
      have h0 := hpre 0 (by simp)
      rw [show ((p :: pre) ++ mid ++ (W ++ c :: r)).drop 0 =
        p :: (pre ++ mid ++ (W ++ c :: r)) by simp] at h0
      rw [matchLabelAt_none_of_ci _ _ h0]
      exact ih lab mid W r c hlab hm
        (fun i hi => by
          have := hpre (i + 1) (by simpa using hi)
          simpa using this) hW hc

lemma foldPatterns_lookup (kvs : List (String × String)) (content : String) :
    ∀ (d : List (String × Json)) (k : String) (lab2 : String),
    (k, lab2) ∈ kvs → (kvs.map Prod.fst).Nodup → pyLookup d k = none →
    pyLookup (kvs.foldl (patternStep content) d) k =
      (labelValue lab2 content).map (fun v => Json.str v) := by
  induction kvs with
  | nil => intro d k lab2 hmem; cases hmem
  | cons kv rest ih =>
      intro d k lab2 hmem hnodup hnone
      rw [List.foldl_cons]
      rcases List.mem_cons.mp hmem with heq | hmem2
      · -- the key is handled by this step; later steps do not touch it
        subst heq
        have hrest : ∀ q ∈ rest, q.1 ≠ k := by
          intro q hq he
          exact (List.nodup_cons.mp hnodup).1
            (he ▸ List.mem_map.mpr ⟨q, hq, rfl⟩)
        rw [lookup_foldPatterns_preserve rest content k hrest]
        simp only [patternStep]
        cases labelValue lab2 content with
        | none => simpa using hnone
        | some v => simp [pyLookup_set_self]
      · -- the key is handled later; this step does not touch it
        have hne : kv.1 ≠ k := by
          intro he
          apply (List.nodup_cons.mp hnodup).1
          rw [he]
          exact List.mem_map.mpr ⟨(k, lab2), hmem2, rfl⟩
        apply ih _ k lab2 hmem2 (List.nodup_cons.mp hnodup).2
        simp only [patternStep]
        cases labelValue kv.2 content with
        | none => exact hnone
        | some v => rw [pyLookup_set_ne _ _ _ _ (Ne.symm hne)]; exact hnone

/-- Claim C8 (amended).  Label extraction: each of the seven fields is
found by a leftmost case-insensitive search for its fixed label
immediately followed by a colon; whitespace is tolerated after the
colon only (it may even spill onto following lines), not between the
label and the colon; the value is the trimmed rest of the matched line,
and an absent label leaves the field null rather than raising. -/
theorem label_colon_extraction :
    (∀ (lab pre mid W r : List Char) (c : Char),
      lab ≠ [] →
      lab.map pyLowerChar = mid.map pyLowerChar →
      (∀ i, i < pre.length →
        ciStartsWith lab ((pre ++ mid ++ (W ++ c :: r)).drop i) = false) →
      (∀ x ∈ W, pyIsSpace x = true) → pyIsSpace c = false →
      searchLabel lab (pre ++ mid ++ (W ++ c :: r)) =
        some ((c :: r).takeWhile (fun x => x ≠ '\n'))) ∧
    (∀ (lab content : List Char),
      (∀ i, i < content.length →
        ciStartsWith lab (content.drop i) = false) →
      searchLabel lab content = none) ∧
    (∀ (d : List (String × Json)) (content : String),
      (∀ kv ∈ patterns, pyLookup d kv.1 = none) →
      ∀ kv ∈ patterns,
        pyLookup (applyPatterns d content) kv.1 =
          (labelValue kv.2 content).map (fun v => Json.str v)) ∧
    (∀ (p : Page) (d : List (String × Json)), scrape_source p = .ok d →
      ∀ k lab2, (k, lab2) ∈ [("country", "Country:"),
        ("freedom_rating", "Country Freedom Rating:"),
        ("media_type", "Media Type:"), ("traffic", "Traffic/Popularity:"),
        ("credibility", "MBFC Credibility Rating:")] →
      pyGetD d k .null =
        (match labelValue lab2 p.content with
         | some v => Json.str v
         | none => Json.null)) := by
  refine ⟨fun lab pre mid W r c h1 h2 h3 h4 h5 =>
    searchLabel_found pre lab mid W r c h1 h2 h3 h4 h5,
    searchLabel_none, ?_, ?_⟩
  · intro d content hd kv hkv
    exact foldPatterns_lookup patterns content d kv.1 kv.2 (by
      obtain ⟨a, b⟩ := kv; exact hkv) (by decide) (hd kv hkv)
  · intro p d hok k lab2 hmem
    have main : ∀ k2 lab3 : String, (k2, lab3) ∈ patterns →
        k2 ≠ "bias_rating_raw" → k2 ≠ "bias_rating" → k2 ≠ "bias_score" →
        k2 ≠ "factual_reporting_raw" → k2 ≠ "factual_reporting" →
        k2 ≠ "factual_score" → k2 ≠ "source_url" →
        pyGetD d k2 .null =
          (match labelValue lab3 p.content with
           | some v => Json.str v
           | none => Json.null) := by
      intro k2 lab3 hm hn1 hn2 hn3 hn4 hn5 hn6 hn7
      simp only [scrape_source] at hok
      set v : Json := (match findSourceAnchor p.anchors with
        | some u => Json.str u
        | none =>
            match searchSource p.content.data with
            | some g => Json.str (pyStrip (String.mk g))
            | none => Json.null) with hv
      cases hb : applyRating (applyPatterns (pyDictSet [] "source_url" v)
          p.content) "bias_rating_raw" "bias_rating" "bias_score" with
      | error e => simp only [hb] at hok; cases hok
      | ok d3 =>
          simp only [hb] at hok
          have hd1 : pyLookup (pyDictSet [] "source_url" v) k2 = none := by
            show pyLookup [("source_url", v)] k2 = none
            simp [pyLookup, Ne.symm hn7]
          rw [pyGetD, lookup_applyRating_ne _ _ _ _ _ _ hn4 hn5 hn6 hok,
            lookup_applyRating_ne _ _ _ _ _ _ hn1 hn2 hn3 hb,
            applyPatterns,
            foldPatterns_lookup patterns p.content _ k2 lab3 hm (by decide)
              hd1]
          cases labelValue lab3 p.content <;> rfl
    simp only [List.mem_cons, List.mem_singleton, Prod.mk.injEq,
      List.not_mem_nil, or_false] at hmem
    rcases hmem with h | h | h | h | h <;>
      (obtain ⟨hk, hl⟩ := h
       subst hk
       subst hl
       exact main _ _ (by decide) (by decide) (by decide) (by decide)
         (by decide) (by decide) (by decide) (by decide))

/-- Witness for C8: a value on the following line is still found with
the colon directly after the label; an occurrence in running text is
matched case-insensitively after earlier non-matching positions. -/
theorem label_colon_extraction_witness :
    (∃ d, scrape_source pageNlColon = .ok d ∧
      pyGetD d "country" .null = .str "USA") ∧
    searchLabel "Country:".data "xx country:usa".data = some "usa".data := by
  constructor
  · refine ⟨_, rfl, ?_⟩
    have h := label_colon_extraction.2.2.2 pageNlColon _ rfl "country"
      "Country:" (by simp)
    rw [h]; rfl
  · have h := label_colon_extraction.1 "Country:".data "xx ".data
      "country:".data [] "sa".data 'u' (by decide) (by decide)
      (by decide) (by decide) (by decide)
    simpa using h

/-- Counterexample for C8 as claimed: with whitespace between the label
and the colon (`"Country : USA"`) the pattern `Country:\s*(.+)` does
not match, the field stays null, and the claimed tolerance of
whitespace on both sides of the colon fails. -/
theorem label_colon_counterexample :
    pageWsColon.content = "Country : USA" ∧
    (scrape_source pageWsColon).map (fun d => pyLookup d "country") =
      .ok none := ⟨rfl, rfl⟩

/-! ## Claim C1: resume behaviour of the extraction phase

The checkpoint persists only the kept (USA) records, so on a second run
the kept urls are loaded and skipped, but urls that were fetched and
dropped by the country filter (or that errored) are fetched again.
With an unchanged oracle the re-fetched pages are dropped or fail
again, so the final result set is nevertheless identical. -/

lemma jsonMem_append (x : Json) (xs ys : List Json) :
    jsonMem x (xs ++ ys) = (jsonMem x xs || jsonMem x ys) := by
  induction xs with
  | nil => simp [jsonMem]
  | cons y xs ih => simp [jsonMem, ih, Bool.or_assoc]

lemma jsonBeq_str_iff (a b : String) :
    jsonBeq (.str a) (.str b) = true ↔ a = b := by
  rw [jsonBeq_str_str]
  exact beq_iff_eq

lemma jsonMem_of_mem_str (u : String) (xs : List Json)
    (h : Json.str u ∈ xs) : jsonMem (.str u) xs = true := by
  induction xs with
  | nil => cases h
  | cons y ys ih =>
      rcases List.mem_cons.mp h with he | hin
      · simp [jsonMem, ← he, jsonBeq_str_str]
      · simp [jsonMem, ih hin]

lemma withMeta_url (d : List (String × Json)) (l : LinkInfo) :
    pyLookup (withMeta d l) "url" = some (.str l.url) := by
  unfold withMeta
  rw [pyLookup_set_ne _ _ _ _ (by decide), pyLookup_set_self]

lemma withMeta_country (d : List (String × Json)) (l : LinkInfo)
    (dflt : Json) :
    pyGetD (withMeta d l) "country" dflt = pyGetD d "country" dflt := by
  unfold withMeta pyGetD
  rw [pyLookup_set_ne _ _ _ _ (by decide), pyLookup_set_ne _ _ _ _ (by decide),
    pyLookup_set_ne _ _ _ _ (by decide)]

lemma processLink_results (oracle : Oracle) (st : LoopState) (l : LinkInfo) :
    ∃ δ, (processLink oracle st l).results = st.results ++ δ := by
  unfold processLink
  by_cases hskip : jsonMem (.str l.url) st.scraped = true
  · exact ⟨[], by simp [hskip]⟩
  · simp only [hskip, Bool.false_eq_true, if_false]
    cases ho : oracle l.url with
    | error e => exact ⟨[], by simp [afterTry]; split <;> rfl⟩
    | ok d =>
        cases hc : pyGetD (withMeta d l) "country" (.str "") with
        | str c =>
            by_cases husa : pyUpper c = "USA"
            · refine ⟨[.obj (withMeta d l)], ?_⟩
              simp only [hc, husa]
              simp [afterTry]; split <;> rfl
            · exact ⟨[], by simp [hc, husa]⟩
        | null => exact ⟨[], by simp [hc, afterTry]; split <;> rfl⟩
        | boolVal b => exact ⟨[], by simp [hc, afterTry]; split <;> rfl⟩
        | num dd => exact ⟨[], by simp [hc, afterTry]; split <;> rfl⟩
        | arr xs => exact ⟨[], by simp [hc, afterTry]; split <;> rfl⟩
        | obj flds => exact ⟨[], by simp [hc, afterTry]; split <;> rfl⟩

lemma foldl_results_mono (oracle : Oracle) (links : List LinkInfo) :
    ∀ st : LoopState, ∃ δ,
      (links.foldl (processLink oracle) st).results = st.results ++ δ := by
  induction links with
  | nil => intro st; exact ⟨[], by simp⟩
  | cons l rest ih =>
      intro st
      obtain ⟨δ1, h1⟩ := processLink_results oracle st l
      obtain ⟨δ2, h2⟩ := ih (processLink oracle st l)
      exact ⟨δ1 ++ δ2, by rw [List.foldl_cons, h2, h1, List.append_assoc]⟩

lemma processLink_scraped_aux (oracle : Oracle) (st : LoopState)
    (l : LinkInfo) (u : String) :
    jsonMem (.str u) (processLink oracle st l).scraped = true ↔
      jsonMem (.str u) st.scraped = true ∨
        (l.url = u ∧ procOK oracle l.url) := by
  unfold processLink
  by_cases hskip : jsonMem (.str l.url) st.scraped = true
  · simp only [hskip, if_pos rfl]
    constructor
    · exact Or.inl
    · rintro (h | ⟨rfl, _⟩)
      · exact h
      · exact hskip
  · simp only [hskip, Bool.false_eq_true, if_false]
    split
    · -- the fetch raised: the url is not marked as processed
      next e ho =>
        have hsc : (afterTry { st with
            fetched := st.fetched ++ [l.url]
            errors := st.errors + 1 }).scraped = st.scraped := by
          simp only [afterTry]; split <;> rfl
        rw [hsc]
        constructor
        · exact Or.inl
        · rintro (h | ⟨rfl, d, c, hd, _⟩)
          · exact h
          · rw [ho] at hd; cases hd
    · next d ho =>
        split
        · -- the country value is a string: both branches of the filter
          -- mark the url as processed
          next c hc =>
            have hdc : pyGetD d "country" (.str "") = Json.str c := by
              rw [← withMeta_country d l]; exact hc
            have key : ∀ st2 : LoopState,
                st2.scraped = st.scraped ++ [.str l.url] →
                (jsonMem (.str u) st2.scraped = true ↔
                  jsonMem (.str u) st.scraped = true ∨
                    (l.url = u ∧ procOK oracle l.url)) := by
              intro st2 h2
              rw [h2, jsonMem_append]
              simp only [jsonMem, Bool.or_false]
              constructor
              · intro h
                rcases Bool.or_eq_true_iff.mp h with h | h
                · exact Or.inl h
                · exact Or.inr ⟨((jsonBeq_str_iff u l.url).mp h).symm,
                    d, c, ho, hdc⟩
              · rintro (h | ⟨rfl, _⟩)
                · simp [h]
                · simp [jsonBeq_str_str]
            split
            · exact key _ rfl
            · apply key
              simp only [afterTry]
              split <;> rfl
        · -- the country value is not a string: `.upper()` raises and the
          -- iteration only counts an error
          next hnostr =>
            have hsc : (afterTry { st with
                fetched := st.fetched ++ [l.url]
                errors := st.errors + 1 }).scraped = st.scraped := by
              simp only [afterTry]; split <;> rfl
            rw [hsc]
            constructor
            · exact Or.inl
            · rintro (h | ⟨rfl, d2, c2, hd2, hc2⟩)
              · exact h
              · rw [ho] at hd2
                injection hd2 with hd3
                subst hd3
                rw [← withMeta_country d l (.str "")] at hc2
                exact absurd hc2 (by intro hh; exact hnostr c2 hh)

lemma foldl_scraped (oracle : Oracle) (links : List LinkInfo) :
    ∀ (st : LoopState) (u : String),
    jsonMem (.str u) ((links.foldl (processLink oracle) st).scraped) = true ↔
      jsonMem (.str u) st.scraped = true ∨
        ∃ l ∈ links, l.url = u ∧ procOK oracle l.url := by
  induction links with
  | nil => intro st u; simp
  | cons l0 rest ih =>
      intro st u
      rw [List.foldl_cons, ih, processLink_scraped_aux]
      constructor
      · rintro ((h | ⟨he, hp⟩) | ⟨l2, hl2, he2, hp2⟩)
        · exact Or.inl h
        · exact Or.inr ⟨l0, by simp, he, hp⟩
        · exact Or.inr ⟨l2, by simp [hl2], he2, hp2⟩
      · rintro (h | ⟨l2, hl2, he2, hp2⟩)
        · exact Or.inl (Or.inl h)
        · rcases List.mem_cons.mp hl2 with rfl | h2
          · exact Or.inl (Or.inr ⟨he2, hp2⟩)
          · exact Or.inr ⟨l2, h2, he2, hp2⟩

lemma urlOfRec_obj (flds : List (String × Json)) :
    urlOfRec (Json.obj flds) = (pyLookup flds "url").getD Json.null := rfl

lemma kept_in_results (oracle : Oracle) (links : List LinkInfo) :
    ∀ (st : LoopState) (l : LinkInfo) (d : List (String × Json)) (c : String),
    l ∈ links → oracle l.url = .ok d →
    pyGetD d "country" (.str "") = .str c → pyUpper c = "USA" →
    jsonMem (.str l.url) st.scraped = true ∨
      ∃ r ∈ (links.foldl (processLink oracle) st).results,
        urlOfRec r = .str l.url := by
  induction links with
  | nil => intro st l d c hmem; cases hmem
  | cons l0 rest ih =>
      intro st l d c hmem hok hc husa
      rw [List.foldl_cons]
      have hkeep : ∀ st2 : LoopState,
          jsonMem (.str l.url) st2.scraped = false →
          Json.obj (withMeta d l) ∈ (processLink oracle st2 l).results := by
        intro st2 hskip2
        unfold processLink
        simp only [hskip2, Bool.false_eq_true, if_false, hok]
        have hcw : pyGetD (withMeta d l) "country" (.str "") = .str c := by
          rw [withMeta_country]; exact hc
        simp only [hcw]
        rw [if_neg (by simp [husa])]
        have : (afterTry { st2 with
            fetched := st2.fetched ++ [l.url]
            results := st2.results ++ [.obj (withMeta d l)]
            scraped := st2.scraped ++ [.str l.url] }).results =
            st2.results ++ [.obj (withMeta d l)] := by
          simp only [afterTry]; split <;> rfl
        rw [this]
        simp
      rcases List.mem_cons.mp hmem with rfl | hmem2
      · cases hskip : jsonMem (.str l.url) st.scraped with
        | true => exact Or.inl rfl
        | false =>
            right
            obtain ⟨δ, hδ⟩ :=
              foldl_results_mono oracle rest (processLink oracle st l)
            rw [hδ]
            refine ⟨Json.obj (withMeta d l),
              List.mem_append_left _ (hkeep st hskip), ?_⟩
            rw [urlOfRec_obj, withMeta_url]
            rfl
      · rcases ih (processLink oracle st l0) l d c hmem2 hok hc husa with
          hleft | hright
        · rcases (processLink_scraped_aux oracle st l0 l.url).mp hleft with
            h1 | ⟨hequrl, _⟩
          · exact Or.inl h1
          · cases hskip0 : jsonMem (.str l0.url) st.scraped with
            | true => exact Or.inl (by rw [← hequrl]; exact hskip0)
            | false =>
                right
                obtain ⟨δ, hδ⟩ :=
                  foldl_results_mono oracle rest (processLink oracle st l0)
                rw [hδ]
                have hok0 : oracle l0.url = .ok d := by rw [hequrl]; exact hok
                have hkeep0 : Json.obj (withMeta d l0) ∈
                    (processLink oracle st l0).results := by
                  -- redo the computation for the link l0: same url, same page
                  unfold processLink
                  simp only [hskip0, Bool.false_eq_true, if_false, hok0]
                  have hcw : pyGetD (withMeta d l0) "country" (.str "") =
                      .str c := by
                    rw [withMeta_country]; exact hc
                  simp only [hcw]
                  rw [if_neg (by simp [husa])]
                  have : (afterTry { st with
                      fetched := st.fetched ++ [l0.url]
                      results := st.results ++ [.obj (withMeta d l0)]
                      scraped := st.scraped ++ [.str l0.url] }).results =
                      st.results ++ [.obj (withMeta d l0)] := by
                    simp only [afterTry]; split <;> rfl
                  rw [this]
                  simp
                refine ⟨Json.obj (withMeta d l0),
                  List.mem_append_left _ hkeep0, ?_⟩
                rw [urlOfRec_obj, withMeta_url, hequrl]
                rfl
        · exact Or.inr hright

lemma processLink_cases (oracle : Oracle) (st : LoopState) (l : LinkInfo) :
    ((processLink oracle st l).results = st.results ∧
      (processLink oracle st l).scraped = st.scraped ∧
      (processLink oracle st l).fetched = st.fetched) ∨
    (jsonMem (.str l.url) st.scraped = false ∧
      (processLink oracle st l).fetched = st.fetched ++ [l.url] ∧
      (((processLink oracle st l).results = st.results ∧
        ((processLink oracle st l).scraped = st.scraped ∨
          (processLink oracle st l).scraped = st.scraped ++ [.str l.url])) ∨
        ∃ d c, oracle l.url = .ok d ∧
          pyGetD d "country" (.str "") = Json.str c ∧ pyUpper c = "USA" ∧
          (processLink oracle st l).results =
            st.results ++ [.obj (withMeta d l)] ∧
          (processLink oracle st l).scraped = st.scraped ++ [.str l.url])) := by
  unfold processLink
  by_cases hskip : jsonMem (.str l.url) st.scraped = true
  · simp only [hskip, if_pos rfl]
    exact Or.inl ⟨rfl, rfl, rfl⟩
  · have hskipf : jsonMem (.str l.url) st.scraped = false := by
      cases h : jsonMem (.str l.url) st.scraped with
      | false => rfl
      | true => exact absurd h hskip
    simp only [hskip, Bool.false_eq_true, if_false]
    refine Or.inr ⟨trivial, ?_, ?_⟩
    · split
      · next e ho => simp only [afterTry]; split <;> rfl
      · next d ho =>
          split
          · next c hc =>
              split
              · next husa => rfl
              · next husa => simp only [afterTry]; split <;> rfl
          · next hnostr => simp only [afterTry]; split <;> rfl
    · split
      · next e ho =>
          exact Or.inl ⟨by simp only [afterTry]; split <;> rfl,
            Or.inl (by simp only [afterTry]; split <;> rfl)⟩
      · next d ho =>
          split
          · next c hc =>
              split
              · next husa => exact Or.inl ⟨rfl, Or.inr rfl⟩
              · next husa =>
                  refine Or.inr ⟨d, c, ho, ?_, not_not.mp husa, ?_, ?_⟩
                  · rw [← withMeta_country d l (.str "")]; exact hc
                  · simp only [afterTry]; split <;> rfl
                  · simp only [afterTry]; split <;> rfl
          · next hnostr =>
              exact Or.inl ⟨by simp only [afterTry]; split <;> rfl,
                Or.inl (by simp only [afterTry]; split <;> rfl)⟩

lemma RunWF_step (oracle : Oracle) (st : LoopState) (l : LinkInfo)
    (h : RunWF st) : RunWF (processLink oracle st l) := by
  obtain ⟨h1, h2⟩ := h
  unfold RunWF
  rcases processLink_cases oracle st l with ⟨hr, hs, _⟩ |
    ⟨hskip, _, ⟨hr, hsor⟩ | ⟨d, c, _, _, _, hr, hs⟩⟩
  · refine ⟨?_, ?_⟩
    · intro r hrr
      rw [hr] at hrr
      obtain ⟨flds, u, e1, e2, e3⟩ := h1 r hrr
      exact ⟨flds, u, e1, e2, by rw [hs]; exact e3⟩
    · rw [hr]; exact h2
  · refine ⟨?_, ?_⟩
    · intro r hrr
      rw [hr] at hrr
      obtain ⟨flds, u, e1, e2, e3⟩ := h1 r hrr
      refine ⟨flds, u, e1, e2, ?_⟩
      rcases hsor with hs | hs
      · rw [hs]; exact e3
      · rw [hs, jsonMem_append, e3]; rfl
    · rw [hr]; exact h2
  · refine ⟨?_, ?_⟩
    · intro r hrr
      rw [hr] at hrr
      rcases List.mem_append.mp hrr with hold | hnew
      · obtain ⟨flds, u, e1, e2, e3⟩ := h1 r hold
        refine ⟨flds, u, e1, e2, ?_⟩
        rw [hs, jsonMem_append, e3]; rfl
      · rw [List.mem_singleton.mp hnew]
        refine ⟨withMeta d l, l.url, rfl, withMeta_url d l, ?_⟩
        rw [hs, jsonMem_append]
        simp [jsonMem, jsonBeq_str_str]
    · rw [hr, List.map_append]
      have hurl : urlOfRec (Json.obj (withMeta d l)) = Json.str l.url := by
        rw [urlOfRec_obj, withMeta_url]; rfl
      have hmapone : ([Json.obj (withMeta d l)]).map urlOfRec =
          [Json.str l.url] := by simp [hurl]
      rw [hmapone, List.nodup_append]
      refine ⟨h2, List.nodup_singleton _, ?_⟩
      intro a ha hb
      rw [List.mem_singleton.mp hb] at ha
      obtain ⟨r, hrmem, hru⟩ := List.mem_map.mp ha
      obtain ⟨flds, u, e1, e2, e3⟩ := h1 r hrmem
      rw [e1, urlOfRec_obj, e2] at hru
      simp only [Option.getD_some] at hru
      injection hru with h4
      rw [h4] at e3
      rw [e3] at hskip
      exact absurd hskip (by decide)

lemma RunWF_fold (oracle : Oracle) (links : List LinkInfo) :
    ∀ st : LoopState, RunWF st → RunWF (links.foldl (processLink oracle) st) := by
  induction links with
  | nil => intro st h; exact h
  | cons l rest ih => intro st h; exact ih _ (RunWF_step oracle st l h)

lemma foldl_fetched (oracle : Oracle) (links : List LinkInfo) :
    ∀ (st : LoopState) (u : String),
      u ∈ (links.foldl (processLink oracle) st).fetched →
      u ∈ st.fetched ∨ jsonMem (.str u) st.scraped = false := by
  induction links with
  | nil => intro st u h; exact Or.inl h
  | cons l rest ih =>
      intro st u h
      rw [List.foldl_cons] at h
      rcases ih _ u h with h1 | h1
      · rcases processLink_cases oracle st l with ⟨_, _, hf⟩ | ⟨hskip, hf, _⟩
        · rw [hf] at h1; exact Or.inl h1
        · rw [hf] at h1
          rcases List.mem_append.mp h1 with h2 | h2
          · exact Or.inl h2
          · right; rw [List.mem_singleton.mp h2]; exact hskip
      · by_cases h2 : jsonMem (.str u) st.scraped = true
        · have h3 := (processLink_scraped_aux oracle st l u).mpr (Or.inl h2)
          rw [h3] at h1
          exact absurd h1 (by decide)
        · right
          cases h4 : jsonMem (.str u) st.scraped with
          | false => rfl
          | true => exact absurd h4 h2

lemma foldl_results_frozen (oracle : Oracle) (links : List LinkInfo) :
    ∀ st : LoopState,
      (∀ l ∈ links, ∀ d c, oracle l.url = .ok d →
        pyGetD d "country" (.str "") = Json.str c → pyUpper c = "USA" →
        jsonMem (.str l.url) st.scraped = true) →
      (links.foldl (processLink oracle) st).results = st.results := by
  induction links with
  | nil => intro st _; rfl
  | cons l rest ih =>
      intro st hyp
      rw [List.foldl_cons]
      have hstep : (processLink oracle st l).results = st.results := by
        rcases processLink_cases oracle st l with ⟨hr, _, _⟩ |
          ⟨hskip, _, ⟨hr, _⟩ | ⟨d, c, ho, hc, husa, _, _⟩⟩
        · exact hr
        · exact hr
        · have hm := hyp l (List.mem_cons_self l rest) d c ho hc husa
          rw [hm] at hskip
          exact absurd hskip (by decide)
      have hyp2 : ∀ l2 ∈ rest, ∀ d c, oracle l2.url = .ok d →
          pyGetD d "country" (.str "") = Json.str c → pyUpper c = "USA" →
          jsonMem (.str l2.url) (processLink oracle st l).scraped = true := by
        intro l2 hl2 d c ho hc husa
        exact (processLink_scraped_aux oracle st l l2.url).mpr
          (Or.inl (hyp l2 (List.mem_cons_of_mem l hl2) d c ho hc husa))
      rw [ih _ hyp2, hstep]

lemma map_snd_pair (rs : List Json) :
    (rs.map (fun r => (urlOfRec r, r))).map Prod.snd = rs := by
  induction rs with
  | nil => rfl
  | cons r t ih => simp [ih]

lemma map_fst_pair (rs : List Json) :
    (rs.map (fun r => (urlOfRec r, r))).map Prod.fst = rs.map urlOfRec := by
  induction rs with
  | nil => rfl
  | cons r t ih => simp [ih]

lemma runMain_resume (oracle : Oracle) (links : List LinkInfo) (R1 : List Json)
    (hkeyed : urlKeyed R1) (hnodup : (R1.map urlOfRec).Nodup)
    (hkept : ∀ l ∈ links, ∀ d c, oracle l.url = .ok d →
      pyGetD d "country" (.str "") = Json.str c → pyUpper c = "USA" →
      Json.str l.url ∈ R1.map urlOfRec) :
    ∃ out2 : RunOut,
      runMain oracle links (checkpointFile R1) = .ok out2 ∧
      out2.st.results = R1 ∧ out2.finalSave = R1 ∧
      ∀ u ∈ out2.st.fetched, jsonMem (.str u) (R1.map urlOfRec) = false := by
  have hload : load_existing_results (checkpointFile R1) =
      .ok (R1.map (fun r => (urlOfRec r, r))) := by
    have h := loadGo_ok R1 [] hkeyed (by simpa using hnodup) (by simp)
    have hck : checkpointFile R1 = .jsonContent (.arr R1) := rfl
    rw [hck]
    simp [load_existing_results, loadIter, h]
  have hrun2 : runMain oracle links (checkpointFile R1) =
      .ok { st := List.foldl (processLink oracle)
              ⟨R1, R1.map urlOfRec, 0, 0, 0, [], []⟩ links
            finalSave := (List.foldl (processLink oracle)
              ⟨R1, R1.map urlOfRec, 0, 0, 0, [], []⟩ links).results } := by
    simp only [runMain, hload]
    rw [map_snd_pair, map_fst_pair]
  have hyp2 : ∀ l ∈ links, ∀ d c, oracle l.url = .ok d →
      pyGetD d "country" (.str "") = Json.str c → pyUpper c = "USA" →
      jsonMem (.str l.url) (R1.map urlOfRec) = true := by
    intro l hl d c ho hc husa
    exact jsonMem_of_mem_str l.url (R1.map urlOfRec) (hkept l hl d c ho hc husa)
  have hfrozen : (List.foldl (processLink oracle)
      ⟨R1, R1.map urlOfRec, 0, 0, 0, [], []⟩ links).results = R1 :=
    foldl_results_frozen oracle links ⟨R1, R1.map urlOfRec, 0, 0, 0, [], []⟩ hyp2
  refine ⟨_, hrun2, hfrozen, hfrozen, ?_⟩
  intro u hu
  rcases foldl_fetched oracle links
      ⟨R1, R1.map urlOfRec, 0, 0, 0, [], []⟩ u hu with h | h
  · exact absurd h (List.not_mem_nil u)
  · exact h

/-- Claim C1 (amended).  Resuming against the checkpoint of a completed
run with an unchanged oracle and link set leaves the kept result set,
and hence the final save, identical to the first run's; every url the
second run fetches at all is absent from the checkpoint's records, so
links whose record was kept are skipped and never re-fetched — but
links the first run dropped (country filter) or failed on leave no
trace in the checkpoint and are fetched again, contrary to the
claim's "no link is re-fetched, all are counted as skipped". -/
theorem resume_idempotence (oracle : Oracle) (links : List LinkInfo) :
    ∃ out1 out2 : RunOut,
      runMain oracle links .absent = .ok out1 ∧
      runMain oracle links (checkpointFile out1.finalSave) = .ok out2 ∧
      out2.st.results = out1.st.results ∧
      out2.finalSave = out1.finalSave ∧
      ∀ u ∈ out2.st.fetched,
        jsonMem (.str u) (out1.st.results.map urlOfRec) = false := by
  have hwf0 : RunWF ⟨[], [], 0, 0, 0, [], []⟩ := by
    unfold RunWF
    refine ⟨?_, ?_⟩
    · intro r hr
      exact absurd hr (List.not_mem_nil r)
    · exact List.nodup_nil
  have hwf1 := RunWF_fold oracle links ⟨[], [], 0, 0, 0, [], []⟩ hwf0
  obtain ⟨hwfa, hwfb⟩ := hwf1
  have hkeyed : urlKeyed (List.foldl (processLink oracle)
      ⟨[], [], 0, 0, 0, [], []⟩ links).results := by
    intro r hr
    obtain ⟨flds, u, e1, e2, _⟩ := hwfa r hr
    exact ⟨flds, u, e1, e2⟩
  have hkept : ∀ l ∈ links, ∀ d c, oracle l.url = .ok d →
      pyGetD d "country" (.str "") = Json.str c → pyUpper c = "USA" →
      Json.str l.url ∈ ((List.foldl (processLink oracle)
        ⟨[], [], 0, 0, 0, [], []⟩ links).results.map urlOfRec) := by
    intro l hl d c ho hc husa
    rcases kept_in_results oracle links ⟨[], [], 0, 0, 0, [], []⟩ l d c
        hl ho hc husa with h | ⟨r, hrmem, hru⟩
    · simp [jsonMem] at h
    · exact List.mem_map.mpr ⟨r, hrmem, hru⟩
  obtain ⟨out2, h2, hres, hfin, hfet⟩ := runMain_resume oracle links
    (List.foldl (processLink oracle) ⟨[], [], 0, 0, 0, [], []⟩ links).results
    hkeyed hwfb hkept
  exact ⟨{ st := List.foldl (processLink oracle) ⟨[], [], 0, 0, 0, [], []⟩ links
           finalSave := (List.foldl (processLink oracle)
             ⟨[], [], 0, 0, 0, [], []⟩ links).results },
    out2, rfl, h2, hres, hfin, hfet⟩

/-- Counterexample to C1 as stated: a link fetched by the first run but
dropped by the country filter leaves no trace in the checkpoint (the
first run's final save is empty), so the second run skips nothing and
fetches the url again, against the claim that every link is skipped
and none re-fetched on resume. -/
theorem resume_idempotence_counterexample :
    (runMain oracle1 links1 .absent).map (fun o => o.finalSave) = .ok [] ∧
    (runMain oracle1 links1 (checkpointFile [])).map
      (fun o => (o.st.skipped, o.st.fetched)) = .ok (0, ["u"]) := ⟨rfl, rfl⟩

end MBFC
